import Mathlib

/-!
# Verification of the semlint core pipeline

A shallow embedding, in Lean 4, of the semlint core: the diff parser
(`splitDiffIntoFileChunks`, `parseDiffGitHeader`), the rule scoper
(`getRuleCandidateFiles`, `buildScopedDiff`, `shouldRunRule`), the secret
guard (`filterDiffByIgnoreRules`, `scanDiffForSecrets`), the dispatch engine
(`runBatchDispatch`, `runParallelDispatch`), the diagnostic normalizer
(`normalizeDiagnostics`, `sortDiagnostics`, `hasBlockingDiagnostic`) and the
driver (`runSemlint`).

Modelling conventions, used throughout:

* Strings are processed over their underlying character lists with the
  helper functions below, so that every definition evaluates inside the
  kernel (`decide` / `rfl` on concrete inputs).
* JavaScript `number` is modelled as `Rat` (the claims under study do not
  depend on floating-point rounding); `Number.isInteger` becomes `den = 1`.
* Filesystem reads and external-process effects are modelled as explicit
  inputs: the patterns read from ignore files, the answer of the interactive
  confirmation, the existence of a file on disk, and the backend's response
  to a prompt are all fields of an environment record.
* The JavaScript regular-expression library is modelled by a small
  executable engine (`compileRegex` / `regexTest`): compilation is partial
  (`Option`), mirroring `new RegExp` throwing on malformed patterns.  The
  fixed secret-detector regexes of `secrets.ts` are translated individually
  into executable character-list scanners.
* The glob library (picomatch) is modelled by `globMatch`, a segment-wise
  matcher supporting `*`, `**` and `?`.
-/

/-! ## Character-list string primitives -/

/-- Split a character list at every newline, like JavaScript
`String.prototype.split("\n")`: the empty input yields one empty field. -/
def splitNLChars : List Char → List (List Char)
  | [] => [[]]
  | c :: cs =>
    if c = '\n' then [] :: splitNLChars cs
    else
      match splitNLChars cs with
      | [] => [[c]]
      | l :: ls => (c :: l) :: ls

/-- Join character-list lines with newline separators, the inverse of
`splitNLChars` (JavaScript `Array.prototype.join("\n")`). -/
def joinNLChars : List (List Char) → List Char
  | [] => []
  | [l] => l
  | l :: ls => l ++ '\n' :: joinNLChars ls

/-- JavaScript `diff.split("\n")`, producing `String` lines. -/
def splitOnNewlines (s : String) : List String :=
  (splitNLChars s.data).map fun l => ⟨l⟩

/-- JavaScript `lines.join("\n")`. -/
def joinWithNewlines (xs : List String) : String :=
  ⟨joinNLChars (xs.map String.data)⟩

/-- Boolean prefix test on character lists. -/
def isPrefixChars : List Char → List Char → Bool
  | [], _ => true
  | _ :: _, [] => false
  | p :: ps, c :: cs => p == c && isPrefixChars ps cs

/-- JavaScript `s.startsWith(p)`. -/
def strStartsWith (s p : String) : Bool :=
  isPrefixChars p.data s.data

/-- Drop a literal prefix from a character list, or fail. -/
def dropPrefixChars : List Char → List Char → Option (List Char)
  | [], rest => some rest
  | _ :: _, [] => none
  | p :: ps, c :: cs => if p = c then dropPrefixChars ps cs else none

/-- The whitespace characters of the JavaScript `\s` class that can occur in
a line of text already split at newlines (Unicode spaces are not modelled). -/
def isJsSpace (c : Char) : Bool :=
  c == ' ' || c == '\t' || c == '\r' || c == '\x0b' || c == '\x0c'

/-- JavaScript `s.trim()` on a character list. -/
def trimChars (l : List Char) : List Char :=
  ((l.dropWhile fun c => isJsSpace c || c == '\n').reverse.dropWhile
    fun c => isJsSpace c || c == '\n').reverse

/-- JavaScript `s.trim()`. -/
def strTrim (s : String) : String := ⟨trimChars s.data⟩

/-- Decimal digit test, JavaScript `\d`. -/
def isDigitChar (c : Char) : Bool := '0' ≤ c && c ≤ '9'

/-- Parse an initial run of decimal digits: JavaScript `Number` applied to a
`\d+` capture.  Returns the value and the remaining characters; fails when no
digit is present. -/
def parseNatPrefix (l : List Char) : Option (Nat × List Char) :=
  let digits := l.takeWhile isDigitChar
  if digits = [] then none
  else some (digits.foldl (fun n c => n * 10 + (c.toNat - '0'.toNat)) 0, l.drop digits.length)

/-! ## Diff Parser (`diff.ts`) -/

/-- The `a`/`b` paths extracted from a `diff --git` header line. -/
structure DiffFilePaths where
  aPath : String
  bPath : String
deriving Repr, DecidableEq

/-- One per-file chunk of a unified diff. -/
structure DiffChunk where
  file : String
  chunk : String
deriving Repr, DecidableEq

/-- Replace every (left-to-right, non-overlapping) occurrence of the
two-character sequence `a b` by `r`: one JavaScript global `replace` of a
two-character literal pattern. -/
def replaceSeq2 (a b r : Char) : List Char → List Char
  | [] => []
  | [x] => [x]
  | x :: y :: rest =>
    if x == a && y == b then r :: replaceSeq2 a b r rest
    else x :: replaceSeq2 a b r (y :: rest)

/-- `unquoteDiffPath` from `diff.ts`: if the raw token is surrounded by
double quotes, strip them and undo `\"` and `\\` escapes (in that order of
global replaces); otherwise return it unchanged. -/
def unquoteDiffPath (raw : List Char) : List Char :=
  if isPrefixChars ['"'] raw && isPrefixChars ['"'] raw.reverse && raw.length ≥ 2 then
    replaceSeq2 '\\' '\\' '\\' (replaceSeq2 '\\' '"' '"' ((raw.drop 1).dropLast))
  else raw

/-- Scan the body of a quoted path spec `"(?:[^"\\]|\\.)+"`: consume
characters until the closing unescaped quote, a backslash always consuming
the following character.  Returns the raw (still escaped) body and the
characters after the closing quote; fails on an empty body, an unterminated
quote or a trailing backslash. -/
def scanQuotedBody (acc : List Char) : List Char → Option (List Char × List Char)
  | [] => none
  | '"' :: rest => if acc = [] then none else some (acc.reverse, rest)
  | '\\' :: [] => none
  | '\\' :: d :: rest => scanQuotedBody (d :: '\\' :: acc) rest
  | c :: rest => scanQuotedBody (c :: acc) rest

/-- Parse one path spec of a `diff --git` header, of side letter `side`
(`a` or `b`): either `"<side>/<escaped body>"` or `<side>/<token>` where the
token is a maximal nonempty run of non-whitespace characters.  Returns the
captured group (before unquoting) and the remaining characters. -/
def parsePathSpec (side : Char) (l : List Char) : Option (List Char × List Char) :=
  match l with
  | '"' :: rest =>
    match dropPrefixChars [side, '/'] rest with
    | none => none
    | some body => scanQuotedBody [] body
  | _ =>
    match dropPrefixChars [side, '/'] l with
    | none => none
    | some rest =>
      let tok := rest.takeWhile fun c => !isJsSpace c
      if tok = [] then none else some (tok, rest.drop tok.length)

/-- `parseDiffGitHeader` from `diff.ts`: the anchored alternation
`diff --git (?:"a\/((?:[^"\\]|\\.)+)"|a\/(\S+)) (?:"b\/(...)"|b\/(\S+))$`,
rendered as a deterministic scanner (the quoted and unquoted alternatives
are distinguished by their first character, so no backtracking is needed). -/
def parseDiffGitHeader (line : String) : Option DiffFilePaths :=
  match dropPrefixChars "diff --git ".data line.data with
  | none => none
  | some rest =>
    match parsePathSpec 'a' rest with
    | none => none
    | some (aRaw, afterA) =>
      match afterA with
      | ' ' :: afterSpace =>
        match parsePathSpec 'b' afterSpace with
        | none => none
        | some (bRaw, afterB) =>
          if afterB = [] then
            some ⟨⟨unquoteDiffPath aRaw⟩, ⟨unquoteDiffPath bRaw⟩⟩
          else none
      | _ => none

/-- Is this line a chunk boundary candidate (`line.startsWith("diff --git ")`)? -/
def isHeaderLine (line : String) : Bool :=
  strStartsWith line "diff --git "

/-- The mutable state of `splitDiffIntoFileChunks`'s scan: flushed groups
(file, accumulated lines), the current accumulation, and the current file. -/
structure SplitSt where
  groups : List (String × List String)
  currentLines : List String
  currentFile : String

/-- The `flush` closure of `splitDiffIntoFileChunks`: emit the accumulated
lines as a chunk unless nothing has accumulated. -/
def flushSt (st : SplitSt) : SplitSt :=
  if st.currentLines = [] then st
  else ⟨st.groups ++ [(st.currentFile, st.currentLines)], [], ""⟩

/-- One iteration of `splitDiffIntoFileChunks`'s loop body. -/
def stepLine (st : SplitSt) (line : String) : SplitSt :=
  if isHeaderLine line then
    let st1 := flushSt st
    let st2 :=
      match parseDiffGitHeader line with
      | some p => { st1 with currentFile := p.bPath }
      | none => st1
    { st2 with currentLines := st2.currentLines ++ [line] }
  else
    { st with currentLines := st.currentLines ++ [line] }

/-- The chunk groups produced by scanning a list of lines. -/
def splitDiffGroups (lines : List String) : List (String × List String) :=
  (flushSt (lines.foldl stepLine ⟨[], [], ""⟩)).groups

/-- `splitDiffIntoFileChunks` from `diff.ts`: split at `\n`, scan the lines,
flush a trailing chunk, each chunk's text being its lines re-joined with
`\n`. -/
def splitDiffIntoFileChunks (diff : String) : List DiffChunk :=
  (splitDiffGroups (splitOnNewlines diff)).map fun g => ⟨g.1, joinWithNewlines g.2⟩

example :
    splitDiffIntoFileChunks "preamble\ndiff --git a/x.ts b/x.ts\n+1" =
      [⟨"", "preamble"⟩, ⟨"x.ts", "diff --git a/x.ts b/x.ts\n+1"⟩] := by decide

example :
    parseDiffGitHeader "diff --git \"a/sp ace.ts\" \"b/sp ace.ts\"" =
      some ⟨"sp ace.ts", "sp ace.ts"⟩ := by decide

example : parseDiffGitHeader "diff --git malformed" = none := by decide

/-! ## Round-trip lemmas for line splitting and joining -/

theorem splitNLChars_ne_nil (l : List Char) : splitNLChars l ≠ [] := by
  cases l with
  | nil => simp [splitNLChars]
  | cons c cs =>
    simp only [splitNLChars]
    split
    · simp
    · cases h : splitNLChars cs <;> simp

theorem joinNLChars_cons_cons (a : List Char) (b : List (List Char)) (hb : b ≠ []) :
    joinNLChars (a :: b) = a ++ '\n' :: joinNLChars b := by
  cases b with
  | nil => exact absurd rfl hb
  | cons x xs => rfl

theorem joinNLChars_splitNLChars (l : List Char) : joinNLChars (splitNLChars l) = l := by
  induction l with
  | nil => rfl
  | cons c cs ih =>
    simp only [splitNLChars]
    by_cases hc : c = '\n'
    · rw [if_pos hc, joinNLChars_cons_cons _ _ (splitNLChars_ne_nil cs), ih, hc]
      rfl
    · rw [if_neg hc]
      cases h : splitNLChars cs with
      | nil => exact absurd h (splitNLChars_ne_nil cs)
      | cons x xs =>
        rw [h] at ih
        cases xs with
        | nil => simpa [joinNLChars] using ih
        | cons y ys =>
          simp only [joinNLChars] at ih ⊢
          simp [ih]

theorem splitNLChars_no_newline (l : List Char) : ∀ f ∈ splitNLChars l, '\n' ∉ f := by
  induction l with
  | nil => simp [splitNLChars]
  | cons c cs ih =>
    simp only [splitNLChars]
    by_cases hc : c = '\n'
    · rw [if_pos hc]
      intro f hf
      rcases List.mem_cons.mp hf with hf | hf
      · simp [hf]
      · exact ih f hf
    · rw [if_neg hc]
      cases h : splitNLChars cs with
      | nil => exact absurd h (splitNLChars_ne_nil cs)
      | cons x xs =>
        intro f hf
        rcases List.mem_cons.mp hf with hf | hf
        · subst hf
          intro hmem
          rcases List.mem_cons.mp hmem with h1 | h1
          · exact hc h1.symm
          · exact ih x (h ▸ List.mem_cons_self x xs) h1
        · exact ih f (h ▸ List.mem_cons_of_mem x hf)

theorem splitNLChars_of_no_newline (l : List Char) (h : '\n' ∉ l) :
    splitNLChars l = [l] := by
  induction l with
  | nil => rfl
  | cons c cs ih =>
    simp only [splitNLChars]
    rw [if_neg (by intro hc; exact h (hc ▸ List.mem_cons_self c cs))]
    rw [ih (fun hm => h (List.mem_cons_of_mem c hm))]

theorem splitNLChars_append_newline (a r : List Char) (ha : '\n' ∉ a) :
    splitNLChars (a ++ '\n' :: r) = a :: splitNLChars r := by
  induction a with
  | nil => simp [splitNLChars]
  | cons c cs ih =>
    simp only [List.cons_append, splitNLChars]
    rw [if_neg (by intro hc; exact ha (hc ▸ List.mem_cons_self c cs))]
    have hcs := ih (fun hm => ha (List.mem_cons_of_mem c hm))
    rw [show cs.append ('\n' :: r) = cs ++ '\n' :: r from rfl, hcs]

theorem joinNLChars_append_of_ne_nil {xs ys : List (List Char)} (hx : xs ≠ [])
    (hy : ys ≠ []) : joinNLChars (xs ++ ys) = joinNLChars xs ++ '\n' :: joinNLChars ys := by
  induction xs with
  | nil => exact absurd rfl hx
  | cons a rest ih =>
    cases rest with
    | nil =>
      simp only [List.nil_append, List.singleton_append]
      rw [joinNLChars_cons_cons a ys hy]
      rfl
    | cons b bs =>
      rw [List.cons_append, joinNLChars_cons_cons a ((b :: bs) ++ ys) (by simp),
        joinNLChars_cons_cons a (b :: bs) (by simp), ih (by simp)]
      simp

theorem splitNLChars_joinNLChars (ls : List (List Char)) (hne : ls ≠ [])
    (hnl : ∀ l ∈ ls, '\n' ∉ l) : splitNLChars (joinNLChars ls) = ls := by
  induction ls with
  | nil => exact absurd rfl hne
  | cons a rest ih =>
    cases rest with
    | nil =>
      simp only [joinNLChars]
      exact splitNLChars_of_no_newline a (hnl a (List.mem_cons_self a []))
    | cons b bs =>
      rw [joinNLChars_cons_cons a (b :: bs) (by simp)]
      rw [splitNLChars_append_newline a _ (hnl a (List.mem_cons_self _ _))]
      rw [ih (by simp) (fun l hl => hnl l (List.mem_cons_of_mem a hl))]

theorem joinNLChars_flatten (gs : List (List (List Char))) (h : ∀ g ∈ gs, g ≠ []) :
    joinNLChars (gs.map joinNLChars) = joinNLChars gs.flatten := by
  induction gs with
  | nil => rfl
  | cons g rest ih =>
    cases rest with
    | nil => simp [joinNLChars]
    | cons g2 rest2 =>
      have hg : g ≠ [] := h g (List.mem_cons_self _ _)
      have hflat : (g2 :: rest2).flatten ≠ [] := by
        have hg2 : g2 ≠ [] := h g2 (by simp)
        cases g2 with
        | nil => exact absurd rfl hg2
        | cons x xs => simp [List.flatten]
      rw [List.map_cons, joinNLChars_cons_cons _ _ (by simp)]
      rw [ih (fun g' hg' => h g' (List.mem_cons_of_mem g hg'))]
      rw [show (g :: g2 :: rest2).flatten = g ++ (g2 :: rest2).flatten from rfl]
      rw [joinNLChars_append_of_ne_nil hg hflat]


/-! ## Structural invariants of the diff scan -/

/-- All lines held by a scan state, in order: flushed groups then the
current accumulation. -/
def stLines (st : SplitSt) : List String :=
  (st.groups.map Prod.snd).flatten ++ st.currentLines

theorem flushSt_groups_flatten (st : SplitSt) :
    ((flushSt st).groups.map Prod.snd).flatten = stLines st := by
  unfold flushSt stLines
  split
  · simp [*]
  · simp

theorem stLines_stepLine (st : SplitSt) (l : String) :
    stLines (stepLine st l) = stLines st ++ [l] := by
  unfold stepLine
  split
  · unfold stLines flushSt
    cases hp : parseDiffGitHeader l <;> split <;> simp_all
  · simp [stLines]

theorem stLines_foldl (lines : List String) (st : SplitSt) :
    stLines (lines.foldl stepLine st) = stLines st ++ lines := by
  induction lines generalizing st with
  | nil => simp
  | cons l rest ih => rw [List.foldl_cons, ih, stLines_stepLine]; simp

theorem splitDiffGroups_flatten (lines : List String) :
    ((splitDiffGroups lines).map Prod.snd).flatten = lines := by
  unfold splitDiffGroups
  rw [flushSt_groups_flatten, stLines_foldl]
  rfl

/-- The invariant maintained by `stepLine`: flushed groups are nonempty,
header lines occur only as first lines of groups, every group after the
first begins with a header line, and a group opened by an unparseable
header carries the empty file name. -/
structure SplitInv (st : SplitSt) : Prop where
  nonempty : ∀ g ∈ st.groups, g.2 ≠ []
  tailsNoHeader : ∀ g ∈ st.groups, ∀ l ∈ g.2.tail, isHeaderLine l = false
  curTailNoHeader : ∀ l ∈ st.currentLines.tail, isHeaderLine l = false
  tailGroupsHeader : ∀ g ∈ st.groups.tail, ∃ h t, g.2 = h :: t ∧ isHeaderLine h = true
  curHeadIfGroups : st.groups ≠ [] → ∃ h t, st.currentLines = h :: t ∧ isHeaderLine h = true
  fileOk : ∀ g ∈ st.groups, ∀ h t, g.2 = h :: t → isHeaderLine h = true →
    parseDiffGitHeader h = none → g.1 = ""
  curFileOk : ∀ h t, st.currentLines = h :: t → isHeaderLine h = true →
    parseDiffGitHeader h = none → st.currentFile = ""
  curEmptyFile : st.currentLines = [] → st.currentFile = ""

theorem splitInv_init : SplitInv ⟨[], [], ""⟩ := by
  constructor <;> simp

theorem splitInv_step {st : SplitSt} (inv : SplitInv st) (l : String) :
    SplitInv (stepLine st l) := by
  unfold stepLine
  by_cases hl : isHeaderLine l = true
  · rw [if_pos hl]
    by_cases hcur : st.currentLines = []
    · have hflush : flushSt st = st := by unfold flushSt; rw [if_pos hcur]
      have hfile : st.currentFile = "" := inv.curEmptyFile hcur
      cases hp : parseDiffGitHeader l with
      | none =>
        simp only [hflush, hp]
        constructor
        · exact inv.nonempty
        · exact inv.tailsNoHeader
        · simp [hcur]
        · exact inv.tailGroupsHeader
        · intro _; exact ⟨l, [], by simp [hcur], hl⟩
        · exact inv.fileOk
        · intro h t _ _ _
          exact hfile
        · intro hcontra; simp [hcur] at hcontra
      | some p =>
        simp only [hflush, hp]
        constructor
        · exact inv.nonempty
        · exact inv.tailsNoHeader
        · simp [hcur]
        · exact inv.tailGroupsHeader
        · intro _; exact ⟨l, [], by simp [hcur], hl⟩
        · exact inv.fileOk
        · intro h t hht hhd hpn
          have hhl : l = h := by simpa [hcur] using congrArg List.head? hht
          rw [← hhl] at hpn
          rw [hp] at hpn
          exact absurd hpn (by simp)
        · intro hcontra; simp [hcur] at hcontra
    · have hflush : flushSt st =
          ⟨st.groups ++ [(st.currentFile, st.currentLines)], [], ""⟩ := by
        unfold flushSt; rw [if_neg hcur]
      cases hp : parseDiffGitHeader l with
      | none =>
        simp only [hflush, hp]
        constructor
        · intro g hg
          rcases List.mem_append.mp hg with hg | hg
          · exact inv.nonempty g hg
          · simp at hg; rw [hg]; exact hcur
        · intro g hg
          rcases List.mem_append.mp hg with hg | hg
          · exact inv.tailsNoHeader g hg
          · simp at hg; rw [hg]; exact inv.curTailNoHeader
        · simp
        · intro g hg
          by_cases hgs : st.groups = []
          · rw [hgs] at hg; simp at hg
          · rw [List.tail_append_of_ne_nil hgs] at hg
            rcases List.mem_append.mp hg with hg2 | hg2
            · exact inv.tailGroupsHeader g hg2
            · simp at hg2; rw [hg2]
              simpa using inv.curHeadIfGroups hgs
        · intro _; exact ⟨l, [], rfl, hl⟩
        · intro g hg
          rcases List.mem_append.mp hg with hg | hg
          · exact inv.fileOk g hg
          · simp at hg; rw [hg]
            intro h t hht hhd hpn
            exact inv.curFileOk h t hht hhd hpn
        · intro h t hht hhd hpn
          rfl
        · intro hcontra; simp at hcontra
      | some p =>
        simp only [hflush, hp]
        constructor
        · intro g hg
          rcases List.mem_append.mp hg with hg | hg
          · exact inv.nonempty g hg
          · simp at hg; rw [hg]; exact hcur
        · intro g hg
          rcases List.mem_append.mp hg with hg | hg
          · exact inv.tailsNoHeader g hg
          · simp at hg; rw [hg]; exact inv.curTailNoHeader
        · simp
        · intro g hg
          by_cases hgs : st.groups = []
          · rw [hgs] at hg; simp at hg
          · rw [List.tail_append_of_ne_nil hgs] at hg
            rcases List.mem_append.mp hg with hg2 | hg2
            · exact inv.tailGroupsHeader g hg2
            · simp at hg2; rw [hg2]
              simpa using inv.curHeadIfGroups hgs
        · intro _; exact ⟨l, [], rfl, hl⟩
        · intro g hg
          rcases List.mem_append.mp hg with hg | hg
          · exact inv.fileOk g hg
          · simp at hg; rw [hg]
            intro h t hht hhd hpn
            exact inv.curFileOk h t hht hhd hpn
        · intro h t hht hhd hpn
          have hhl : l = h := by simpa using congrArg List.head? hht
          rw [← hhl] at hpn
          rw [hp] at hpn
          exact absurd hpn (by simp)
        · intro hcontra; simp at hcontra
  · rw [if_neg hl]
    have hl' : isHeaderLine l = false := by simpa using hl
    constructor
    · exact inv.nonempty
    · exact inv.tailsNoHeader
    · intro x hx
      cases hc : st.currentLines with
      | nil => rw [hc] at hx; simp at hx
      | cons h0 t0 =>
        rw [hc] at hx
        simp only [List.cons_append, List.tail_cons] at hx
        rcases List.mem_append.mp hx with hx | hx
        · exact inv.curTailNoHeader x (by rw [hc]; simpa using hx)
        · simp at hx; rw [hx]; exact hl'
    · exact inv.tailGroupsHeader
    · intro hgs
      rcases inv.curHeadIfGroups hgs with ⟨h, t, hht, hhd⟩
      exact ⟨h, t ++ [l], by rw [hht]; simp, hhd⟩
    · exact inv.fileOk
    · intro h t hht hhd hpn
      cases hc : st.currentLines with
      | nil =>
        have hlh : l = h := by simpa [hc] using congrArg List.head? hht
        rw [← hlh] at hhd
        rw [hl'] at hhd
        exact absurd hhd (by simp)
      | cons h0 t0 =>
        have hh0 : h0 = h := by simpa [hc] using congrArg List.head? hht
        exact inv.curFileOk h0 t0 hc (hh0 ▸ hhd) (hh0 ▸ hpn)
    · intro hcontra
      simp at hcontra

theorem splitInv_foldl (lines : List String) (st : SplitSt) (inv : SplitInv st) :
    SplitInv (lines.foldl stepLine st) := by
  induction lines generalizing st with
  | nil => exact inv
  | cons l rest ih => exact ih _ (splitInv_step inv l)

/-- The four structural facts about the final chunk groups: groups are
nonempty, header lines occur only as first lines, all groups after the
first begin with a header line, and a group opened by an unparseable header
has the empty file name. -/
theorem splitDiffGroups_props (lines : List String) :
    (∀ g ∈ splitDiffGroups lines, g.2 ≠ []) ∧
    (∀ g ∈ splitDiffGroups lines, ∀ l ∈ g.2.tail, isHeaderLine l = false) ∧
    (∀ g ∈ (splitDiffGroups lines).tail, ∃ h t, g.2 = h :: t ∧ isHeaderLine h = true) ∧
    (∀ g ∈ splitDiffGroups lines, ∀ h t, g.2 = h :: t → isHeaderLine h = true →
      parseDiffGitHeader h = none → g.1 = "") := by
  have inv := splitInv_foldl lines ⟨[], [], ""⟩ splitInv_init
  set final := lines.foldl stepLine (⟨[], [], ""⟩ : SplitSt) with hfinal
  show (∀ g ∈ (flushSt final).groups, _) ∧ (∀ g ∈ (flushSt final).groups, _) ∧
    (∀ g ∈ (flushSt final).groups.tail, _) ∧ (∀ g ∈ (flushSt final).groups, _)
  by_cases hcur : final.currentLines = []
  · have hfl : flushSt final = final := by unfold flushSt; rw [if_pos hcur]
    rw [hfl]
    exact ⟨inv.nonempty, inv.tailsNoHeader, inv.tailGroupsHeader, inv.fileOk⟩
  · have hfl : flushSt final =
        ⟨final.groups ++ [(final.currentFile, final.currentLines)], [], ""⟩ := by
      unfold flushSt; rw [if_neg hcur]
    rw [hfl]
    refine ⟨?_, ?_, ?_, ?_⟩
    · intro g hg
      rcases List.mem_append.mp hg with hg | hg
      · exact inv.nonempty g hg
      · simp at hg; rw [hg]; exact hcur
    · intro g hg
      rcases List.mem_append.mp hg with hg | hg
      · exact inv.tailsNoHeader g hg
      · simp at hg; rw [hg]; exact inv.curTailNoHeader
    · intro g hg
      by_cases hgs : final.groups = []
      · rw [hgs] at hg; simp at hg
      · rw [List.tail_append_of_ne_nil hgs] at hg
        rcases List.mem_append.mp hg with hg2 | hg2
        · exact inv.tailGroupsHeader g hg2
        · simp at hg2; rw [hg2]
          simpa using inv.curHeadIfGroups hgs
    · intro g hg
      rcases List.mem_append.mp hg with hg | hg
      · exact inv.fileOk g hg
      · simp at hg; rw [hg]
        intro h t hht hhd hpn
        exact inv.curFileOk h t hht hhd hpn

/-- Every line stored in a chunk group is one of the scanned input lines. -/
theorem splitDiffGroups_line_mem (lines : List String) {g : String × List String}
    (hg : g ∈ splitDiffGroups lines) {l : String} (hl : l ∈ g.2) : l ∈ lines := by
  rw [← splitDiffGroups_flatten lines]
  exact List.mem_flatten.mpr ⟨g.2, List.mem_map.mpr ⟨g, hg, rfl⟩, hl⟩

theorem String.mk_data_eq (s : String) : (⟨s.data⟩ : String) = s := rfl

theorem splitOnNewlines_no_newline (s : String) :
    ∀ l ∈ splitOnNewlines s, '\n' ∉ l.data := by
  intro l hl
  rcases List.mem_map.mp hl with ⟨f, hf, rfl⟩
  exact splitNLChars_no_newline s.data f hf

theorem splitOnNewlines_joinWithNewlines (ls : List String) (hne : ls ≠ [])
    (hnl : ∀ l ∈ ls, '\n' ∉ l.data) :
    splitOnNewlines (joinWithNewlines ls) = ls := by
  unfold splitOnNewlines joinWithNewlines
  rw [show ((⟨joinNLChars (ls.map String.data)⟩ : String)).data
      = joinNLChars (ls.map String.data) from rfl]
  rw [splitNLChars_joinNLChars _ (by simpa using hne)
    (by intro d hd; rcases List.mem_map.mp hd with ⟨x, hx, rfl⟩; exact hnl x hx)]
  rw [List.map_map]
  have hid : ((fun l => (⟨l⟩ : String)) ∘ String.data) = id := by funext x; rfl
  rw [hid, List.map_id]

theorem isPrefixChars_append (p a r : List Char) (h : isPrefixChars p a = true) :
    isPrefixChars p (a ++ r) = true := by
  induction p generalizing a with
  | nil => rfl
  | cons x xs ih =>
    cases a with
    | nil => simp [isPrefixChars] at h
    | cons y ys =>
      simp only [isPrefixChars, Bool.and_eq_true] at h ⊢
      exact ⟨h.1, ih ys h.2⟩

/-- C3: for every input diff string, concatenating the chunk fields of
`splitDiffIntoFileChunks diff` in order, with a newline separator between
consecutive chunks, reproduces the original diff text exactly; chunk
boundaries occur only at lines starting with `"diff --git "` (every chunk
after the first begins with such a line). -/
theorem C3_split_roundtrip (diff : String) :
    joinWithNewlines ((splitDiffIntoFileChunks diff).map DiffChunk.chunk) = diff ∧
    ((splitDiffIntoFileChunks diff).tail.all fun c =>
      strStartsWith c.chunk "diff --git ") = true := by
  obtain ⟨hne, _, htail, _⟩ := splitDiffGroups_props (splitOnNewlines diff)
  constructor
  · show joinWithNewlines
      (((splitDiffGroups (splitOnNewlines diff)).map fun g =>
        (⟨g.1, joinWithNewlines g.2⟩ : DiffChunk)).map DiffChunk.chunk) = diff
    rw [List.map_map]
    show joinWithNewlines
      ((splitDiffGroups (splitOnNewlines diff)).map fun g => joinWithNewlines g.2) = diff
    unfold joinWithNewlines
    rw [List.map_map]
    have hmapdata :
        ((splitDiffGroups (splitOnNewlines diff)).map
          (String.data ∘ fun g => (⟨joinNLChars (g.2.map String.data)⟩ : String)))
        = ((splitDiffGroups (splitOnNewlines diff)).map fun g => g.2.map String.data).map
            joinNLChars := by
      rw [List.map_map]
      rfl
    rw [hmapdata]
    rw [joinNLChars_flatten _ (by
      intro g' hg'
      rcases List.mem_map.mp hg' with ⟨g, hg, rfl⟩
      intro hcontra
      exact hne g hg (by simpa using hcontra))]
    have hflat2 :
        ((splitDiffGroups (splitOnNewlines diff)).map fun g => g.2.map String.data).flatten
        = ((splitDiffGroups (splitOnNewlines diff)).map Prod.snd).flatten.map String.data := by
      rw [List.map_flatten, List.map_map]
      rfl
    rw [hflat2, splitDiffGroups_flatten]
    unfold splitOnNewlines
    rw [List.map_map]
    have : ((splitNLChars diff.data).map (String.data ∘ fun l => (⟨l⟩ : String)))
        = splitNLChars diff.data := by
      have hid : (String.data ∘ fun l => (⟨l⟩ : String)) = id := by funext x; rfl
      rw [hid, List.map_id]
    rw [this, joinNLChars_splitNLChars]
  · rw [List.all_eq_true]
    intro c hc
    show strStartsWith c.chunk "diff --git " = true
    have hc' : c ∈ ((splitDiffGroups (splitOnNewlines diff)).map fun g =>
        (⟨g.1, joinWithNewlines g.2⟩ : DiffChunk)).tail := hc
    rw [← List.map_tail] at hc'
    rcases List.mem_map.mp hc' with ⟨g, hg, rfl⟩
    rcases htail g hg with ⟨h, t, hht, hhd⟩
    show isPrefixChars "diff --git ".data (joinWithNewlines g.2).data = true
    rw [hht]
    unfold joinWithNewlines
    cases t with
    | nil => exact hhd
    | cons t0 ts =>
      rw [show ((h :: t0 :: ts).map String.data)
          = h.data :: ((t0 :: ts).map String.data) from rfl]
      rw [joinNLChars_cons_cons _ _ (by simp)]
      exact isPrefixChars_append _ _ _ hhd

/-- C4 counterexample: on a diff containing the unparseable header line
`diff --git malformed`, the parser does not append that line to the current
chunk (it is not absorbed into the previous chunk, as the claim states):
the previous chunk is flushed and the unparseable header starts a chunk of
its own, with an empty file name.  The second conjunct refutes the single
absorbed chunk the claim predicts. -/
theorem C4_counterexample :
    splitDiffIntoFileChunks "diff --git a/x b/y\ncontent\ndiff --git malformed\nmore" =
      [⟨"y", "diff --git a/x b/y\ncontent"⟩, ⟨"", "diff --git malformed\nmore"⟩] ∧
    splitDiffIntoFileChunks "diff --git a/x b/y\ncontent\ndiff --git malformed\nmore" ≠
      [⟨"y", "diff --git a/x b/y\ncontent\ndiff --git malformed\nmore"⟩] := by
  constructor
  · decide
  · decide

/-- C4 (amended): `splitDiffIntoFileChunks` is a total function (it never
throws); a line starting with `"diff --git "` whose path extraction fails
registers no file boundary, in the sense that the chunk it opens carries
the empty file name; such a header line is not absorbed into the previous
chunk but starts a fresh file-less chunk (header lines never occur past
the first line of any chunk). -/
theorem C4_unparseable_header (diff : String) :
    ((splitDiffIntoFileChunks diff).all fun c =>
      ((splitOnNewlines c.chunk).tail.all fun l => !isHeaderLine l) &&
      (match splitOnNewlines c.chunk with
       | [] => true
       | l0 :: _ =>
         !(isHeaderLine l0 && (parseDiffGitHeader l0).isNone) || c.file == "")) = true := by
  obtain ⟨hne, htails, _, hfile⟩ := splitDiffGroups_props (splitOnNewlines diff)
  rw [List.all_eq_true]
  intro c hc
  rcases List.mem_map.mp hc with ⟨g, hg, rfl⟩
  have hresplit : splitOnNewlines (joinWithNewlines g.2) = g.2 :=
    splitOnNewlines_joinWithNewlines g.2 (hne g hg)
      (fun l hl => splitOnNewlines_no_newline diff l (by
        have := splitDiffGroups_line_mem (splitOnNewlines diff) hg hl
        exact this))
  show (((splitOnNewlines (joinWithNewlines g.2)).tail.all fun l => !isHeaderLine l) &&
      (match splitOnNewlines (joinWithNewlines g.2) with
       | [] => true
       | l0 :: _ =>
         !(isHeaderLine l0 && (parseDiffGitHeader l0).isNone) ||
           (⟨g.1, joinWithNewlines g.2⟩ : DiffChunk).file == "")) = true
  rw [hresplit]
  rw [Bool.and_eq_true]
  constructor
  · rw [List.all_eq_true]
    intro l hl
    rw [htails g hg l hl]
    rfl
  · cases hg2 : g.2 with
    | nil => rfl
    | cons l0 rest =>
      by_cases hh : isHeaderLine l0 = true
      · cases hpn : parseDiffGitHeader l0 with
        | none =>
          have : g.1 = "" := hfile g hg l0 rest hg2 hh hpn
          simp [this]
        | some p => simp [hh, hpn]
      · simp [Bool.of_not_eq_true hh]

/-! ## Glob matching (model of picomatch)

The repository matches file paths with picomatch.  The model below
implements the glob features the repository's patterns use: `/`-separated
segments, `*` and `?` inside a segment, and a `**` segment matching any
number (possibly zero) of path segments.  The matchers are fuel-indexed so
that the kernel can evaluate them; the wrappers supply sufficient fuel. -/

/-- Split a character list at every `/`. -/
def splitSlash : List Char → List (List Char)
  | [] => [[]]
  | c :: cs =>
    if c = '/' then [] :: splitSlash cs
    else
      match splitSlash cs with
      | [] => [[c]]
      | l :: ls => (c :: l) :: ls

/-- Match one glob segment against one path segment: `*` matches any run of
characters, `?` any single character, anything else itself. -/
def globSegMatchFuel : Nat → List Char → List Char → Bool
  | 0, _, _ => false
  | _ + 1, [], [] => true
  | fuel + 1, '*' :: ps, [] => globSegMatchFuel fuel ps []
  | fuel + 1, '*' :: ps, c :: cs =>
    globSegMatchFuel fuel ps (c :: cs) || globSegMatchFuel fuel ('*' :: ps) cs
  | fuel + 1, '?' :: ps, _ :: cs => globSegMatchFuel fuel ps cs
  | fuel + 1, p :: ps, c :: cs => p == c && globSegMatchFuel fuel ps cs
  | _ + 1, _ :: _, [] => false
  | _ + 1, [], _ :: _ => false

/-- Match a list of glob segments against a list of path segments; a `**`
segment matches zero or more path segments. -/
def globSegsMatchFuel : Nat → List (List Char) → List (List Char) → Bool
  | 0, _, _ => false
  | _ + 1, [], [] => true
  | fuel + 1, p :: ps, segs =>
    if p = ['*', '*'] then
      match segs with
      | [] => globSegsMatchFuel fuel ps []
      | _ :: rest =>
        globSegsMatchFuel fuel ps segs || globSegsMatchFuel fuel (p :: ps) rest
    else
      match segs with
      | [] => false
      | s :: rest => globSegMatchFuel (p.length + s.length + 1) p s &&
          globSegsMatchFuel fuel ps rest
  | _ + 1, [], _ :: _ => false

/-- Model of `picomatch(pattern)(path)` for a single pattern. -/
def globMatch (pattern path : String) : Bool :=
  let ps := splitSlash pattern.data
  let ss := splitSlash path.data
  globSegsMatchFuel (ps.length + ss.length + 1) ps ss

/-- Model of `picomatch(globs)(path)`: a path matches a pattern array when
any pattern matches. -/
def matchesAnyGlob (globs : List String) (path : String) : Bool :=
  globs.any fun g => globMatch g path

example : globMatch "src/**/*.ts" "src/a.ts" = true := by decide
example : globMatch "src/**/*.ts" "src/x/y/a.ts" = true := by decide
example : globMatch "**/*.test.ts" "src/a.test.ts" = true := by decide
example : globMatch "**/*.test.ts" "src/a.ts" = false := by decide
example : globMatch "src/**/*.ts" "docs/readme.md" = false := by decide

/-! ## Rule model and Rule Scoper (`filter.ts`) -/

/-- Severity levels of `types.ts`. -/
inductive Severity where
  | error
  | warn
  | info
deriving Repr, DecidableEq

/-- A loaded rule (`LoadedRule` of `types.ts`): optional glob/regex fields
are `Option`s, distinguishing an omitted field (`none`, TypeScript
`undefined`) from an explicitly empty list (`some []`). -/
structure LoadedRule where
  id : String
  title : String
  severity_default : Severity
  prompt : String
  include_globs : Option (List String) := none
  exclude_globs : Option (List String) := none
  diff_regex : Option (List String) := none
  sourcePath : String := ""
  effectiveSeverity : Severity
deriving Repr, DecidableEq

/-- `resolveRuleGlobs` from `filter.ts`: an omitted rule field inherits the
global list; a present field (even an empty list) overrides it. -/
def resolveRuleGlobs (ruleGlobs : Option (List String)) (globalGlobs : List String) :
    List String :=
  match ruleGlobs with
  | none => globalGlobs
  | some gs => gs

/-- `getRuleCandidateFiles` from `filter.ts`: a matcher exists only when
the effective glob list is nonempty (`length > 0`); include filtering
short-circuits to no candidates when nothing matches; exclude filtering
then drops matches. -/
def getRuleCandidateFiles (rule : LoadedRule) (changedFiles : List String)
    (globalIncludeGlobs : List String := []) (globalExcludeGlobs : List String := []) :
    List String :=
  let effectiveIncludeGlobs := resolveRuleGlobs rule.include_globs globalIncludeGlobs
  let effectiveExcludeGlobs := resolveRuleGlobs rule.exclude_globs globalExcludeGlobs
  let step1 :=
    if effectiveIncludeGlobs.length > 0 then
      changedFiles.filter fun f => matchesAnyGlob effectiveIncludeGlobs f
    else changedFiles
  if effectiveIncludeGlobs.length > 0 && step1.isEmpty then []
  else if effectiveExcludeGlobs.length > 0 then
    step1.filter fun f => !matchesAnyGlob effectiveExcludeGlobs f
  else step1

/-- The reference definition of candidate files, written from the claim's
words: the effective include (resp. exclude) list is the rule's own list
whenever the field is present — even as an empty list, which then matches
everything — and the global list only when the field is omitted; candidates
start from `changedFiles`, keep only files matching some effective include
glob when that list is non-empty, then drop files matching any effective
exclude glob. -/
def candidateFilesSpec (rule : LoadedRule) (changedFiles : List String)
    (globalIncludeGlobs globalExcludeGlobs : List String) : List String :=
  let inc := match rule.include_globs with
    | some xs => xs
    | none => globalIncludeGlobs
  let exc := match rule.exclude_globs with
    | some xs => xs
    | none => globalExcludeGlobs
  let kept :=
    if inc = [] then changedFiles
    else changedFiles.filter fun f => matchesAnyGlob inc f
  kept.filter fun f => !matchesAnyGlob exc f


theorem matchesAnyGlob_nil (f : String) : matchesAnyGlob [] f = false := rfl

theorem filter_not_matchesAnyGlob_nil (xs : List String) :
    (xs.filter fun f => !matchesAnyGlob [] f) = xs := by
  simp [matchesAnyGlob_nil]

/-- Core equivalence between the source's conditional-matcher formulation
of candidate filtering and the claim's formulation, for already-resolved
include and exclude lists. -/
theorem candidate_core (cf inc exc : List String) :
    (if inc.length > 0 && (if inc.length > 0 then
        cf.filter (fun f => matchesAnyGlob inc f) else cf).isEmpty then []
     else if exc.length > 0 then
       (if inc.length > 0 then cf.filter (fun f => matchesAnyGlob inc f) else cf).filter
         (fun f => !matchesAnyGlob exc f)
     else (if inc.length > 0 then cf.filter (fun f => matchesAnyGlob inc f) else cf))
    = (if inc = [] then cf else cf.filter (fun f => matchesAnyGlob inc f)).filter
        (fun f => !matchesAnyGlob exc f) := by
  by_cases hinc : inc = []
  · subst hinc
    by_cases hexc : exc = []
    · subst hexc
      simp [filter_not_matchesAnyGlob_nil]
    · have he : exc.length > 0 := List.length_pos.mpr hexc
      simp [he]
  · have hlen : inc.length > 0 := List.length_pos.mpr hinc
    by_cases hstep : (cf.filter fun f => matchesAnyGlob inc f) = []
    · by_cases hexc : exc = []
      · subst hexc
        simp [hlen, hinc, hstep, filter_not_matchesAnyGlob_nil]
      · simp [hlen, hinc, hstep, List.length_pos.mpr hexc]
    · have hstep' : (cf.filter fun f => matchesAnyGlob inc f).isEmpty = false := by
        simpa [List.isEmpty_iff] using hstep
      by_cases hexc : exc = []
      · subst hexc
        simp [hlen, hinc, hstep', matchesAnyGlob_nil]
      · simp [hlen, hinc, hstep', List.length_pos.mpr hexc]

/-- C5: `getRuleCandidateFiles` equals the reference definition from the
claim for every rule, changed-file list and global glob lists, and on the
concrete example — changed files `src/a.ts`, `src/a.test.ts`,
`docs/readme.md`, global include `src/**/*.ts`, global exclude
`**/*.test.ts`, a rule with no overrides — it yields exactly `[src/a.ts]`. -/
theorem C5_candidate_files (rule : LoadedRule) (changedFiles : List String)
    (globalIncludeGlobs globalExcludeGlobs : List String) :
    getRuleCandidateFiles rule changedFiles globalIncludeGlobs globalExcludeGlobs =
      candidateFilesSpec rule changedFiles globalIncludeGlobs globalExcludeGlobs ∧
    getRuleCandidateFiles
      ⟨"R1", "t", Severity.warn, "p", none, none, none, "", Severity.warn⟩
      ["src/a.ts", "src/a.test.ts", "docs/readme.md"]
      ["src/**/*.ts"] ["**/*.test.ts"] = ["src/a.ts"] := by
  refine ⟨?_, by decide⟩
  show (let effInc := resolveRuleGlobs rule.include_globs globalIncludeGlobs
        let effExc := resolveRuleGlobs rule.exclude_globs globalExcludeGlobs
        let step1 :=
          if effInc.length > 0 then
            changedFiles.filter fun f => matchesAnyGlob effInc f
          else changedFiles
        if effInc.length > 0 && step1.isEmpty then []
        else if effExc.length > 0 then
          step1.filter fun f => !matchesAnyGlob effExc f
        else step1) =
      (let inc := match rule.include_globs with
        | some xs => xs
        | none => globalIncludeGlobs
       let exc := match rule.exclude_globs with
        | some xs => xs
        | none => globalExcludeGlobs
       let kept :=
        if inc = [] then changedFiles
        else changedFiles.filter fun f => matchesAnyGlob inc f
       kept.filter fun f => !matchesAnyGlob exc f)
  cases rule.include_globs with
  | none =>
    cases rule.exclude_globs with
    | none => exact candidate_core changedFiles globalIncludeGlobs globalExcludeGlobs
    | some excs => exact candidate_core changedFiles globalIncludeGlobs excs
  | some incs =>
    cases rule.exclude_globs with
    | none => exact candidate_core changedFiles incs globalExcludeGlobs
    | some excs => exact candidate_core changedFiles incs excs

/-- `buildScopedDiff` from `filter.ts`: recompute the candidate set; with no
candidates return the full diff; otherwise join the chunks whose file is a
candidate and fall back to the full diff when the joined text is blank.
(The source collects candidates into a `Set`; emptiness and membership are
the same on the underlying list, so the list is used directly.) -/
def buildScopedDiff (rule : LoadedRule) (fullDiff : String) (changedFiles : List String)
    (globalIncludeGlobs : List String := []) (globalExcludeGlobs : List String := []) :
    String :=
  let candidateFiles :=
    getRuleCandidateFiles rule changedFiles globalIncludeGlobs globalExcludeGlobs
  if candidateFiles.isEmpty then fullDiff
  else
    let chunks := splitDiffIntoFileChunks fullDiff
    let scopedText := joinWithNewlines
      ((chunks.filter fun c => c.file != "" && candidateFiles.contains c.file).map
        DiffChunk.chunk)
    if strTrim scopedText = "" then fullDiff else scopedText

/-- The reference definition from the claim: always take the chunks whose
non-empty file is in the candidate set, join them with newline separators,
and return the full unscoped diff whenever that concatenation is blank
(which subsumes the empty-candidate-set case). -/
def buildScopedDiffSpec (rule : LoadedRule) (fullDiff : String) (changedFiles : List String)
    (globalIncludeGlobs globalExcludeGlobs : List String) : String :=
  let candidateFiles :=
    getRuleCandidateFiles rule changedFiles globalIncludeGlobs globalExcludeGlobs
  let scopedText := joinWithNewlines
    (((splitDiffIntoFileChunks fullDiff).filter fun c =>
        c.file != "" && candidateFiles.contains c.file).map DiffChunk.chunk)
  if strTrim scopedText = "" then fullDiff else scopedText

/-- C6: `buildScopedDiff` returns the newline-separated concatenation, in
original order, of exactly those parsed chunks whose non-empty file is in
the rule's candidate set, and falls back to the entire unscoped diff
whenever that concatenation is empty or blank — including when the
candidate set itself is empty. -/
theorem C6_build_scoped_diff (rule : LoadedRule) (fullDiff : String)
    (changedFiles globalIncludeGlobs globalExcludeGlobs : List String) :
    buildScopedDiff rule fullDiff changedFiles globalIncludeGlobs globalExcludeGlobs =
      buildScopedDiffSpec rule fullDiff changedFiles globalIncludeGlobs
        globalExcludeGlobs := by
  unfold buildScopedDiff buildScopedDiffSpec
  by_cases hcand : (getRuleCandidateFiles rule changedFiles globalIncludeGlobs
      globalExcludeGlobs) = []
  · rw [hcand]
    have hfilter : ((splitDiffIntoFileChunks fullDiff).filter fun c =>
        c.file != "" && ([] : List String).contains c.file) = [] :=
      List.filter_eq_nil_iff.mpr (by intro c _; simp)
    simp only [hfilter, List.isEmpty_nil, if_true, List.map_nil]
    have hjoin : strTrim (joinWithNewlines []) = "" := rfl
    rw [hjoin]
    simp
  · have hne : (getRuleCandidateFiles rule changedFiles globalIncludeGlobs
        globalExcludeGlobs).isEmpty = false := by
      simpa [List.isEmpty_iff] using hcand
    simp [hne]

/-! ## Regular-expression model

An executable model of the JavaScript regex library for the features the
repository's dynamic patterns may use.  `compileRegex` is partial, modelling
`new RegExp` throwing on malformed patterns (and returning `none` as well on
constructs outside the modelled subset); matching is by Brzozowski
derivatives, so every function is total and kernel-evaluable.  The fixed
secret-detector patterns of `secrets.ts` are translated separately into
direct scanners, not through this engine. -/

/-- One item of a character class. -/
inductive ClassItem where
  | single (c : Char)
  | range (lo hi : Char)
  | digit
  | notDigit
  | word
  | notWord
  | space
  | notSpace
deriving Repr, DecidableEq

/-- Regular expressions (the language core; anchors are handled by the
compiled wrapper). -/
inductive Regex where
  | emp
  | eps
  | chr (c : Char)
  | anyChar
  | cls (neg : Bool) (items : List ClassItem)
  | alt (r1 r2 : Regex)
  | cat (r1 r2 : Regex)
  | star (r : Regex)
deriving Repr, DecidableEq

/-- ASCII word character, JavaScript `\w`. -/
def isWordChar (c : Char) : Bool :=
  ('a' ≤ c && c ≤ 'z') || ('A' ≤ c && c ≤ 'Z') || isDigitChar c || c == '_'

/-- Whitespace for the regex model (`\s` on newline-free or full text). -/
def isSpaceChar (c : Char) : Bool :=
  isJsSpace c || c == '\n'

def classItemMatches (c : Char) : ClassItem → Bool
  | .single d => c == d
  | .range lo hi => lo ≤ c && c ≤ hi
  | .digit => isDigitChar c
  | .notDigit => !isDigitChar c
  | .word => isWordChar c
  | .notWord => !isWordChar c
  | .space => isSpaceChar c
  | .notSpace => !isSpaceChar c

def regexNullable : Regex → Bool
  | .emp => false
  | .eps => true
  | .chr _ => false
  | .anyChar => false
  | .cls _ _ => false
  | .alt a b => regexNullable a || regexNullable b
  | .cat a b => regexNullable a && regexNullable b
  | .star _ => true

def regexDeriv : Regex → Char → Regex
  | .emp, _ => .emp
  | .eps, _ => .emp
  | .chr d, c => if c = d then .eps else .emp
  | .anyChar, c => if c = '\n' then .emp else .eps
  | .cls neg items, c =>
    if (items.any fun i => classItemMatches c i) != neg then .eps else .emp
  | .alt a b, c => .alt (regexDeriv a c) (regexDeriv b c)
  | .cat a b, c =>
    if regexNullable a then .alt (.cat (regexDeriv a c) b) (regexDeriv b c)
    else .cat (regexDeriv a c) b
  | .star r, c => .cat (regexDeriv r c) (.star r)

/-- Does `r` match the whole character list? -/
def regexMatchList (r : Regex) (cs : List Char) : Bool :=
  regexNullable (cs.foldl regexDeriv r)

/-- Does `r` match some prefix of the list? -/
def existsPrefixMatch : Regex → List Char → Bool
  | r, [] => regexNullable r
  | r, c :: cs => regexNullable r || existsPrefixMatch (regexDeriv r c) cs

/-- Does `r` match some contiguous substring? -/
def existsSubstringMatch (r : Regex) : List Char → Bool
  | [] => existsPrefixMatch r []
  | c :: cs => existsPrefixMatch r (c :: cs) || existsSubstringMatch r cs

/-- Does `r` match some suffix (ending at the end of the list)? -/
def existsSuffixFullMatch (r : Regex) : List Char → Bool
  | [] => regexMatchList r []
  | c :: cs => regexMatchList r (c :: cs) || existsSuffixFullMatch r cs

/-- `r` repeated exactly `n` times. -/
def regexPow (r : Regex) : Nat → Regex
  | 0 => .eps
  | n + 1 => .cat r (regexPow r n)

/-- `r` repeated at most `n` times. -/
def regexUpTo (r : Regex) : Nat → Regex
  | 0 => .eps
  | n + 1 => .cat (.alt .eps r) (regexUpTo r n)

/-- A compiled pattern: optional `^`/`$` anchors around a body regex. -/
structure CompiledRegex where
  startAnchor : Bool
  endAnchor : Bool
  body : Regex
deriving Repr, DecidableEq

/-- The escape shorthands usable both inside and outside classes.  Returns
`none` for escapes outside the modelled subset (word boundaries,
backreferences, unicode escapes). -/
def escapeItem (e : Char) : Option ClassItem :=
  if e = 'd' then some .digit
  else if e = 'D' then some .notDigit
  else if e = 'w' then some .word
  else if e = 'W' then some .notWord
  else if e = 's' then some .space
  else if e = 'S' then some .notSpace
  else if e = 'n' then some (.single '\n')
  else if e = 't' then some (.single '\t')
  else if e = 'r' then some (.single '\r')
  else if e = 'f' then some (.single '\x0c')
  else if e = 'v' then some (.single '\x0b')
  else if e = 'b' || e = 'B' || e = 'x' || e = 'u' || e = 'k' || isDigitChar e then none
  else some (.single e)

/-- Parse the items of a character class, up to the closing `]`. -/
def parseClassItems : Nat → List Char → Option (List ClassItem × List Char)
  | 0, _ => none
  | _ + 1, [] => none
  | _ + 1, ']' :: rest => some ([], rest)
  | fuel + 1, '\\' :: cs =>
    match cs with
    | [] => none
    | e :: rest =>
      match escapeItem e with
      | none => none
      | some item =>
        match parseClassItems fuel rest with
        | none => none
        | some (items, rest2) => some (item :: items, rest2)
  | fuel + 1, c :: cs =>
    match cs with
    | '-' :: d :: rest =>
      if d = ']' then
        match parseClassItems fuel cs with
        | none => none
        | some (items, rest2) => some (.single c :: items, rest2)
      else if d = '\\' then none
      else if c ≤ d then
        match parseClassItems fuel rest with
        | none => none
        | some (items, rest2) => some (.range c d :: items, rest2)
      else none
    | _ =>
      match parseClassItems fuel cs with
      | none => none
      | some (items, rest2) => some (.single c :: items, rest2)

/-- Consume the `?` of a lazy quantifier, if present. -/
def dropLazyMark : List Char → List Char
  | '?' :: rest => rest
  | cs => cs

mutual

/-- Parse an alternation `a|b|...`. -/
def parseRegexAlt : Nat → List Char → Option (Regex × List Char)
  | 0, _ => none
  | fuel + 1, cs =>
    match parseRegexCat fuel cs with
    | none => none
    | some (r, rest) =>
      match rest with
      | '|' :: more =>
        match parseRegexAlt fuel more with
        | none => none
        | some (r2, rest2) => some (.alt r r2, rest2)
      | _ => some (r, rest)

/-- Parse a concatenation of repeated atoms, stopping at `|`, `)` or the
end of the pattern. -/
def parseRegexCat : Nat → List Char → Option (Regex × List Char)
  | 0, _ => none
  | fuel + 1, cs =>
    match cs with
    | [] => some (.eps, [])
    | ')' :: _ => some (.eps, cs)
    | '|' :: _ => some (.eps, cs)
    | _ =>
      match parseRegexRepeat fuel cs with
      | none => none
      | some (r, rest) =>
        match parseRegexCat fuel rest with
        | none => none
        | some (r2, rest2) => some (.cat r r2, rest2)

/-- Parse one atom with an optional postfix quantifier (an extra `?` after
a quantifier — a lazy quantifier — does not change the matched language
for a boolean test and is consumed). -/
def parseRegexRepeat : Nat → List Char → Option (Regex × List Char)
  | 0, _ => none
  | fuel + 1, cs =>
    match parseRegexAtom fuel cs with
    | none => none
    | some (r, rest) =>
      match rest with
      | '*' :: more => some (.star r, dropLazyMark more)
      | '+' :: more => some (.cat r (.star r), dropLazyMark more)
      | '?' :: more => some (.alt .eps r, dropLazyMark more)
      | '{' :: more =>
        match parseNatPrefix more with
        | none => none
        | some (n, afterN) =>
          match afterN with
          | '}' :: more2 => some (regexPow r n, dropLazyMark more2)
          | ',' :: '}' :: more2 =>
            some (.cat (regexPow r n) (.star r), dropLazyMark more2)
          | ',' :: afterComma =>
            match parseNatPrefix afterComma with
            | none => none
            | some (m, afterM) =>
              match afterM with
              | '}' :: more2 =>
                if n ≤ m then
                  some (.cat (regexPow r n) (regexUpTo r (m - n)), dropLazyMark more2)
                else none
              | _ => none
          | _ => none
      | _ => some (r, rest)

/-- Parse one atom: a group, a class, an escape, `.` or a literal. -/
def parseRegexAtom : Nat → List Char → Option (Regex × List Char)
  | 0, _ => none
  | fuel + 1, cs =>
    match cs with
    | [] => none
    | '(' :: rest =>
      let inner :=
        match rest with
        | '?' :: ':' :: body => some body
        | '?' :: _ => none
        | body => some body
      match inner with
      | none => none
      | some body =>
        match parseRegexAlt fuel body with
        | none => none
        | some (r, rest2) =>
          match rest2 with
          | ')' :: more => some (r, more)
          | _ => none
    | '[' :: rest =>
      let (neg, body) :=
        match rest with
        | '^' :: body => (true, body)
        | body => (false, body)
      match parseClassItems fuel body with
      | none => none
      | some (items, rest2) => some (.cls neg items, rest2)
    | '\\' :: e :: rest =>
      match escapeItem e with
      | none => none
      | some (.single c) => some (.chr c, rest)
      | some item => some (.cls false [item], rest)
    | '.' :: rest => some (.anyChar, rest)
    | '^' :: _ => none
    | '$' :: _ => none
    | ')' :: _ => none
    | '|' :: _ => none
    | '*' :: _ => none
    | '+' :: _ => none
    | '?' :: _ => none
    | '{' :: _ => none
    | '}' :: _ => none
    | ']' :: rest => some (.chr ']', rest)
    | c :: rest => some (.chr c, rest)

end

/-- Strip a final unescaped `$` anchor. -/
def stripEndAnchor (cs : List Char) : Bool × List Char :=
  match cs.reverse with
  | '$' :: revRest =>
    if (revRest.takeWhile fun c => c == '\\').length % 2 = 0 then
      (true, revRest.reverse)
    else (false, cs)
  | _ => (false, cs)

/-- Model of `new RegExp(pattern)`: `none` both for patterns on which the
JavaScript constructor throws and for constructs outside the modelled
subset. -/
def compileRegex (pattern : String) : Option CompiledRegex :=
  let cs := pattern.data
  let (sa, cs1) :=
    match cs with
    | '^' :: r => (true, r)
    | _ => (false, cs)
  let (ea, cs2) := stripEndAnchor cs1
  match parseRegexAlt (2 * cs2.length + 2) cs2 with
  | some (r, []) => some ⟨sa, ea, r⟩
  | _ => none

/-- Model of `regex.test(s)` for a pattern without the `m` flag. -/
def regexTestChars (m : CompiledRegex) (cs : List Char) : Bool :=
  match m.startAnchor, m.endAnchor with
  | true, true => regexMatchList m.body cs
  | true, false => existsPrefixMatch m.body cs
  | false, true => existsSuffixFullMatch m.body cs
  | false, false => existsSubstringMatch m.body cs

def regexTest (m : CompiledRegex) (s : String) : Bool :=
  regexTestChars m s.data

/-- Model of `regex.test(s)` for a pattern compiled with the `m` flag:
anchors bind to line boundaries, so an anchored pattern is tested against
every line; an unanchored pattern searches the whole text. -/
def regexTestMultiline (m : CompiledRegex) (s : String) : Bool :=
  if m.startAnchor || m.endAnchor then
    (splitNLChars s.data).any fun l => regexTestChars m l
  else existsSubstringMatch m.body s.data

example : compileRegex "(" = none := by decide
example : compileRegex "[a-" = none := by decide
example : compileRegex "a\x7b2" = none := by decide
example : (compileRegex "ab?c").isSome = true := by decide
example :
    (compileRegex "colou?r").map (fun m => regexTest m "my colour!") = some true := by decide
example :
    (compileRegex "^a+$").map (fun m => regexTest m "aaa") = some true := by decide
example :
    (compileRegex "^a+$").map (fun m => regexTest m "aab") = some false := by decide
example :
    (compileRegex "a[0-9]{2}").map (fun m => regexTest m "xxa12") = some true := by decide

/-! ## Secret Guard (`secrets.ts`) -/

def isAsciiUpper (c : Char) : Bool := 'A' ≤ c && c ≤ 'Z'

def isAsciiLower (c : Char) : Bool := 'a' ≤ c && c ≤ 'z'

def isAlnumChar (c : Char) : Bool := isAsciiUpper c || isAsciiLower c || isDigitChar c

/-- Case-insensitive boolean prefix test (for `/i` literals). -/
def isPrefixCI : List Char → List Char → Bool
  | [], _ => true
  | _ :: _, [] => false
  | p :: ps, c :: cs => p.toLower == c.toLower && isPrefixCI ps cs

/-- Case-insensitive prefix removal. -/
def dropPrefixCI : List Char → List Char → Option (List Char)
  | [], rest => some rest
  | _ :: _, [] => none
  | p :: ps, c :: cs => if p.toLower = c.toLower then dropPrefixCI ps cs else none

/-- Left-to-right scan: at each position try a match-length function; on the
first position where it succeeds, return the matched slice (JavaScript
`line.match(pattern)?.[0]` for the translated detector patterns). -/
def scanFirst (f : List Char → Option Nat) : List Char → Option (List Char)
  | [] =>
    match f [] with
    | some n => some (([] : List Char).take n)
    | none => none
  | c :: cs =>
    match f (c :: cs) with
    | some n => some ((c :: cs).take n)
    | none => scanFirst f cs

/-- Largest split point `k ≤ bound` such that `PRIVATE KEY` follows
case-insensitively after `k` characters — the backtracking of the greedy
`[A-Z ]*` in the private-key detector. -/
def findPrivKeySplit (rest : List Char) : Nat → Option Nat
  | 0 => if isPrefixCI "PRIVATE KEY".data rest then some 0 else none
  | k + 1 =>
    if isPrefixCI "PRIVATE KEY".data (rest.drop (k + 1)) then some (k + 1)
    else findPrivKeySplit rest k

/-- Translation of the detector `/BEGIN [A-Z ]*PRIVATE KEY/i` as a
match-length-at-position function. -/
def matchLenPrivateKey (cs : List Char) : Option Nat :=
  match dropPrefixCI "BEGIN ".data cs with
  | none => none
  | some rest =>
    let maxRun := (rest.takeWhile fun c =>
      isAsciiUpper c || isAsciiLower c || c == ' ').length
    match findPrivKeySplit rest maxRun with
    | some k => some (6 + k + 11)
    | none => none

/-- Translation of the prefix-plus-class-run detectors
(`sk-[A-Za-z0-9]{20,}` and friends): after the literal prefix, a run of
class characters of at least `minRun`; `exact = some n` for a `{n}`
quantifier (exactly `n` characters matched), `none` for a greedy `{n,}`. -/
def matchLenPrefixRun (pfx : List Char) (ci : Bool) (inClass : Char → Bool)
    (minRun : Nat) (exact : Option Nat) (cs : List Char) : Option Nat :=
  match (if ci then dropPrefixCI pfx cs else dropPrefixChars pfx cs) with
  | none => none
  | some rest =>
    let run := (rest.takeWhile inClass).length
    if run ≥ minRun then
      match exact with
      | some n => some (pfx.length + n)
      | none => some (pfx.length + run)
    else none

/-- The value-character class of the generic assignment detector:
`[A-Za-z0-9_\-\/+=]`. -/
def genValueClass (c : Char) : Bool :=
  isAlnumChar c || c == '_' || c == '-' || c == '/' || c == '+' || c == '='

/-- One alternative of the generic assignment detector
`(api[_-]?key|secret|...)\s*[:=]\s*["']?[A-Za-z0-9_\-\/+=]{8,}/i` at a
fixed position, for a fixed keyword spelling. -/
def matchGenericWith (kw : List Char) (cs : List Char) : Option Nat :=
  if isPrefixCI kw cs then
    let afterKw := cs.drop kw.length
    let ws1 := (afterKw.takeWhile isSpaceChar).length
    match afterKw.drop ws1 with
    | [] => none
    | c :: rest2 =>
      if c = ':' || c = '=' then
        let ws2 := (rest2.takeWhile isSpaceChar).length
        let rest3 := rest2.drop ws2
        let quoteCount :=
          match rest3 with
          | '"' :: _ => 1
          | '\'' :: _ => 1
          | _ => 0
        let rest4 := rest3.drop quoteCount
        let run := (rest4.takeWhile genValueClass).length
        if run ≥ 8 then some (kw.length + ws1 + 1 + ws2 + quoteCount + run)
        else none
      else none
  else none

/-- The keyword spellings of the generic detector's alternation, in the
order a backtracking engine tries them (greedy optional `[_-]` first). -/
def genericKeywords : List (List Char) :=
  ["api_key", "api-key", "apikey", "secret", "token", "password", "passwd",
   "private_key", "private-key", "privatekey"].map String.data

def matchLenGenericAux (cs : List Char) : List (List Char) → Option Nat
  | [] => none
  | kw :: rest =>
    match matchGenericWith kw cs with
    | some n => some n
    | none => matchLenGenericAux cs rest

/-- Translation of the generic `key/secret/token/password`-assignment
detector as a match-length-at-position function. -/
def matchLenGeneric (cs : List Char) : Option Nat :=
  matchLenGenericAux cs genericKeywords

/-- One secret detector: its classification tag and its translated pattern
as a match-length-at-position function. -/
structure SecretDetector where
  kind : String
  matchAt : List Char → Option Nat

/-- The ordered detector list of `secrets.ts`. -/
def SECRET_DETECTORS : List SecretDetector :=
  [⟨"private_key_block", matchLenPrivateKey⟩,
   ⟨"openai_key", matchLenPrefixRun "sk-".data false isAlnumChar 20 none⟩,
   ⟨"anthropic_key", matchLenPrefixRun "sk-ant-".data true
      (fun c => isAlnumChar c || c == '-' || c == '_') 20 none⟩,
   ⟨"github_token", matchLenPrefixRun "ghp_".data false isAlnumChar 36 (some 36)⟩,
   ⟨"aws_access_key_id", matchLenPrefixRun "AKIA".data false
      (fun c => isDigitChar c || isAsciiUpper c) 16 (some 16)⟩,
   ⟨"generic_secret_assignment", matchLenGeneric⟩]

/-- Maximal runs of characters satisfying `p` (JavaScript global matching
of a greedy one-class pattern). -/
def maximalRunsAux (p : Char → Bool) (acc : List Char) : List Char → List (List Char)
  | [] => if acc = [] then [] else [acc.reverse]
  | c :: cs =>
    if p c then maximalRunsAux p (c :: acc) cs
    else if acc = [] then maximalRunsAux p [] cs
    else acc.reverse :: maximalRunsAux p [] cs

def maximalRuns (p : Char → Bool) (cs : List Char) : List (List Char) :=
  maximalRunsAux p [] cs

/-- The token class `[A-Za-z0-9+/_=-]` of the long-token heuristic. -/
def entropyClass (c : Char) : Bool :=
  isAlnumChar c || c == '+' || c == '/' || c == '_' || c == '=' || c == '-'

/-- `extractHighEntropyToken` from `secrets.ts`: among maximal runs of at
least 32 token-class characters, the first containing a lowercase letter,
an uppercase letter and a digit. -/
def extractHighEntropyToken (line : List Char) : Option (List Char) :=
  ((maximalRuns entropyClass line).filter fun t => t.length ≥ 32).find? fun t =>
    (t.any isAsciiLower) && (t.any isAsciiUpper) && (t.any isDigitChar)

/-- `redactSample` from `secrets.ts`. -/
def redactSample (sample : List Char) : List Char :=
  let compact := trimChars sample
  if compact.length ≤ 6 then "***".data
  else compact.take 2 ++ "***".data ++ compact.drop (compact.length - 2)

/-- A secret-guard finding (`SecretFinding` of `types.ts`). -/
structure SecretFinding where
  file : String
  line : Nat
  kind : String
  redactedSample : String
deriving Repr, DecidableEq

/-- `parseAllowMatchers` from `secrets.ts`: compile each pattern, silently
dropping the ones on which `new RegExp` throws. -/
def parseAllowMatchers : List String → List CompiledRegex
  | [] => []
  | p :: ps =>
    match compileRegex p with
    | some m => m :: parseAllowMatchers ps
    | none => parseAllowMatchers ps

/-- The hunk-header capture `/^@@ -\d+(?:,\d+)? \+(\d+)(?:,\d+)? @@/`:
returns the new-file start line. -/
def parseHunkNewStart (line : String) : Option Nat :=
  match dropPrefixChars "@@ -".data line.data with
  | none => none
  | some rest =>
    match parseNatPrefix rest with
    | none => none
    | some (_, rest1) =>
      let rest2 :=
        match rest1 with
        | ',' :: r =>
          match parseNatPrefix r with
          | some (_, r2) => r2
          | none => rest1
        | _ => rest1
      match dropPrefixChars " +".data rest2 with
      | none => none
      | some rest3 =>
        match parseNatPrefix rest3 with
        | none => none
        | some (n, rest4) =>
          let rest5 :=
            match rest4 with
            | ',' :: r =>
              match parseNatPrefix r with
              | some (_, r2) => r2
              | none => rest4
            | _ => rest4
          match dropPrefixChars " @@".data rest5 with
          | none => none
          | some _ => some n

/-- The last `/`-separated segment of a path. -/
def basenameOf (s : String) : String :=
  ⟨(splitSlash s.data).getLastD []⟩

/-- Modelled from the spec: the current `scanDiffForSecrets` takes an
`allowFiles` glob list (its tests and its caller in `main.ts` use it) whose
implementation is not among the provided sources.  Per the spec, an added
line is skipped "if its file matches an `allowFiles` glob"; per the tests,
a pattern without a slash also matches against the file's basename. -/
def matchesAllowFiles (allowFiles : List String) (file : String) : Bool :=
  allowFiles.any fun g =>
    globMatch g file ||
      (!(g.data.contains '/') && globMatch g (basenameOf file))

/-- The secret scan of one added line (the body of the
`line.startsWith("+")` branch of `scanDiffForSecrets`): skip allow-listed
lines and files; otherwise the first matching detector, or the long-token
heuristic, yields one finding with a redacted sample. -/
def scanAddedLine (ams : List CompiledRegex) (afs : List String)
    (currentFile : String) (newLine : Nat) (added : String) : List SecretFinding :=
  if (ams.any fun m => regexTest m added) || matchesAllowFiles afs currentFile then []
  else
    match SECRET_DETECTORS.find? (fun d => (scanFirst d.matchAt added.data).isSome) with
    | some d =>
      [⟨currentFile, newLine, d.kind,
        ⟨redactSample ((scanFirst d.matchAt added.data).getD added.data)⟩⟩]
    | none =>
      match extractHighEntropyToken added.data with
      | some tok => [⟨currentFile, newLine, "high_entropy_token", ⟨redactSample tok⟩⟩]
      | none => []

/-- The line loop of `scanDiffForSecrets`: track the current file from the
latest parseable header, re-seed the new-file line number at each hunk
header, count added and context lines, and scan added lines (except the
`+++` marker). -/
def scanLines (ams : List CompiledRegex) (afs : List String) :
    List String → String → Nat → List SecretFinding
  | [], _, _ => []
  | line :: rest, currentFile, newLine =>
    if isHeaderLine line then
      match parseDiffGitHeader line with
      | some p => scanLines ams afs rest p.bPath newLine
      | none => scanLines ams afs rest currentFile newLine
    else
      match parseHunkNewStart line with
      | some n => scanLines ams afs rest currentFile n
      | none =>
        if strStartsWith line "+" && !strStartsWith line "+++" then
          scanAddedLine ams afs currentFile newLine ⟨line.data.drop 1⟩ ++
            scanLines ams afs rest currentFile (newLine + 1)
        else if strStartsWith line " " then
          scanLines ams afs rest currentFile (newLine + 1)
        else
          scanLines ams afs rest currentFile newLine

/-- `scanDiffForSecrets` (current three-argument form): the body follows
`secrets.ts`; the `allowFiles` skip is modelled from the spec (see
`matchesAllowFiles`). -/
def scanDiffForSecrets (diff : String) (allowPatterns : List String)
    (allowFiles : List String) : List SecretFinding :=
  scanLines (parseAllowMatchers allowPatterns) allowFiles
    (splitOnNewlines diff) "(unknown)" 1

example :
    scanDiffForSecrets
      "diff --git a/s.ts b/s.ts\n+++ b/s.ts\n@@ -0,0 +1 @@\n+password=abcdefgh123" [] [] =
    [⟨"s.ts", 1, "generic_secret_assignment", "pa***23"⟩] := by decide

example :
    scanDiffForSecrets
      "diff --git a/s.ts b/s.ts\n+++ b/s.ts\n@@ -0,0 +1 @@\n+password=abcdefgh123"
      [] ["s.ts"] = [] := by decide

/-- Lexicographic three-way comparison of character lists by code point
(the model of `String.prototype.localeCompare`). -/
def cmpCharsInt : List Char → List Char → Int
  | [], [] => 0
  | [], _ :: _ => -1
  | _ :: _, [] => 1
  | a :: as, b :: bs => if a < b then -1 else if b < a then 1 else cmpCharsInt as bs

/-- Model of `a.localeCompare(b)`. -/
def strCompare (a b : String) : Int := cmpCharsInt a.data b.data

/-- JavaScript array sort with the `localeCompare` comparator (stable). -/
def sortStrings (xs : List String) : List String :=
  List.insertionSort (fun a b => strCompare a b ≤ 0) xs

/-- Deduplication preserving first occurrences
(`Array.from(new Set(xs))`). -/
def dedupFirstAux (seen : List String) : List String → List String
  | [] => []
  | x :: xs =>
    if seen.contains x then dedupFirstAux seen xs
    else x :: dedupFirstAux (x :: seen) xs

def dedupFirst (xs : List String) : List String := dedupFirstAux [] xs

/-- The built-in sensitive-path globs of `secrets.ts`. -/
def BUILTIN_SENSITIVE_GLOBS : List String :=
  [".env", ".env.*", "*.pem", "*.key", "id_rsa", "id_rsa.*",
   "**/secrets/**", "**/credentials/**", "**/*credentials*.json"]

/-- Model of `picomatch(patterns, { dot: true })` over a pattern array that
may contain `!`-negated entries: matched when some positive pattern
matches and no negated pattern does.  A pattern without a slash also
matches against the basename (nested sensitive files are excluded, as the
repository's tests require). -/
def ignoreMatches (patterns : List String) (file : String) : Bool :=
  let matchOne := fun (p : String) =>
    globMatch p file ||
      (!(p.data.contains '/') && globMatch p (basenameOf file))
  ((patterns.filter fun p => !strStartsWith p "!").any fun p => matchOne p) &&
    !((patterns.filter fun p => strStartsWith p "!").any fun p =>
      matchOne ⟨p.data.drop 1⟩)

/-- Result of the ignore-path filter. -/
structure IgnoreFilterResult where
  filteredDiff : String
  excludedFiles : List String
deriving Repr, DecidableEq

/-- `filterDiffByIgnoreRules` from `secrets.ts`.  Reading the ignore files
from disk is modelled by passing their collected patterns (blank and `#`
lines already skipped by `readIgnorePatterns`) as the second argument. -/
def filterDiffByIgnoreRules (diff : String) (ignoreFilePatterns : List String) :
    IgnoreFilterResult :=
  let ignorePatterns := ignoreFilePatterns ++ BUILTIN_SENSITIVE_GLOBS
  let chunks := splitDiffIntoFileChunks diff
  let excludedFiles :=
    (chunks.filter fun c => c.file != "" && ignoreMatches ignorePatterns c.file).map
      DiffChunk.file
  let filteredDiff := joinWithNewlines
    ((chunks.filter fun c => c.file == "" || !ignoreMatches ignorePatterns c.file).map
      DiffChunk.chunk)
  ⟨filteredDiff, sortStrings (dedupFirst excludedFiles)⟩

/-! ## Claims about the secret scanner -/

theorem scanAddedLine_allowed_file {ams : List CompiledRegex} {afs : List String}
    {cf : String} {nl : Nat} {added : String}
    (h : matchesAllowFiles afs cf = true) :
    scanAddedLine ams afs cf nl added = [] := by
  unfold scanAddedLine
  rw [h]
  simp

theorem scanAddedLine_file {ams : List CompiledRegex} {afs : List String}
    {cf : String} {nl : Nat} {added : String} {f : SecretFinding}
    (hf : f ∈ scanAddedLine ams afs cf nl added) : f.file = cf := by
  unfold scanAddedLine at hf
  split at hf
  · simp at hf
  · split at hf
    · rcases List.mem_singleton.mp hf with rfl
      rfl
    · split at hf
      · rcases List.mem_singleton.mp hf with rfl
        rfl
      · simp at hf

theorem scanAddedLine_not_allow_file {ams : List CompiledRegex} {afs : List String}
    {cf : String} {nl : Nat} {added : String} {f : SecretFinding}
    (hf : f ∈ scanAddedLine ams afs cf nl added) :
    matchesAllowFiles afs f.file = false := by
  rw [scanAddedLine_file hf]
  by_cases h : matchesAllowFiles afs cf = true
  · rw [scanAddedLine_allowed_file h] at hf
    simp at hf
  · simpa using h

theorem scanLines_allow_files (ams : List CompiledRegex) (afs : List String)
    (lines : List String) :
    ∀ (cf : String) (nl : Nat) (f : SecretFinding),
      f ∈ scanLines ams afs lines cf nl → matchesAllowFiles afs f.file = false := by
  induction lines with
  | nil =>
    intro cf nl f hf
    simp [scanLines] at hf
  | cons line rest ih =>
    intro cf nl f hf
    unfold scanLines at hf
    split at hf
    · split at hf
      · exact ih _ _ f hf
      · exact ih _ _ f hf
    · split at hf
      · exact ih _ _ f hf
      · split at hf
        · rcases List.mem_append.mp hf with hf | hf
          · exact scanAddedLine_not_allow_file hf
          · exact ih _ _ f hf
        · split at hf
          · exact ih _ _ f hf
          · exact ih _ _ f hf

/-- C2: for every diff, allow-pattern list and allow-file glob list,
`scanDiffForSecrets` produces no finding whose file matches one of the
`allowFiles` globs — allow-listing a file glob suppresses every finding
for the files it matches.  (The `allowFiles` skip itself is modelled from
the spec; see `matchesAllowFiles`.) -/
theorem C2_allow_files_suppress (diff : String)
    (allowPatterns allowFiles : List String) :
    ((scanDiffForSecrets diff allowPatterns allowFiles).all fun f =>
      !matchesAllowFiles allowFiles f.file) = true := by
  rw [List.all_eq_true]
  intro f hf
  have := scanLines_allow_files (parseAllowMatchers allowPatterns) allowFiles
    (splitOnNewlines diff) "(unknown)" 1 f hf
  simpa using this

theorem parseAllowMatchers_append (xs ys : List String) :
    parseAllowMatchers (xs ++ ys) = parseAllowMatchers xs ++ parseAllowMatchers ys := by
  induction xs with
  | nil => rfl
  | cons p ps ih =>
    simp only [List.cons_append, parseAllowMatchers]
    cases compileRegex p <;> simp [ih]

/-- C10: an allow pattern rejected by the regex compiler never causes the
scan to fail and never suppresses a finding: the scan behaves exactly as
if the invalid pattern were absent from the list. -/
theorem C10_invalid_allow_pattern (p : String) (hp : compileRegex p = none)
    (diff : String) (xs ys allowFiles : List String) :
    scanDiffForSecrets diff (xs ++ p :: ys) allowFiles =
      scanDiffForSecrets diff (xs ++ ys) allowFiles := by
  unfold scanDiffForSecrets
  have h1 : parseAllowMatchers (xs ++ p :: ys) = parseAllowMatchers (xs ++ ys) := by
    rw [parseAllowMatchers_append, parseAllowMatchers_append]
    simp only [parseAllowMatchers, hp]
  rw [h1]

/-- Witness for C10: the pattern `(` is rejected by the compiler (as by
`new RegExp`), and on a concrete diff with a secret the scan with the
invalid pattern present equals the scan without it — in particular the
finding is still produced (fail-closed). -/
theorem C10_invalid_allow_pattern_witness :
    compileRegex "(" = none ∧
    scanDiffForSecrets
      "diff --git a/s.ts b/s.ts\n+++ b/s.ts\n@@ -0,0 +1 @@\n+password=abcdefgh123"
      ["("] [] =
      scanDiffForSecrets
        "diff --git a/s.ts b/s.ts\n+++ b/s.ts\n@@ -0,0 +1 @@\n+password=abcdefgh123"
        [] [] ∧
    scanDiffForSecrets
      "diff --git a/s.ts b/s.ts\n+++ b/s.ts\n@@ -0,0 +1 @@\n+password=abcdefgh123"
      ["("] [] ≠ [] := by
  refine ⟨by decide, ?_, by decide⟩
  exact C10_invalid_allow_pattern "(" (by decide) _ [] [] []

/-! ## Diagnostic Normalizer (`diagnostics.ts`) -/

/-- Untrusted JSON-like values returned by the backend.  Numbers are
modelled as rationals. -/
inductive JsonValue where
  | jnull
  | jbool (b : Bool)
  | jnum (q : Rat)
  | jstr (s : String)
  | jarr (xs : List JsonValue)
  | jobj (fields : List (String × JsonValue))

/-- Property lookup on a JSON value: `none` is JavaScript `undefined`. -/
def jsonField (j : JsonValue) (key : String) : Option JsonValue :=
  match j with
  | .jobj fields => (fields.find? fun kv => kv.1 == key).map Prod.snd
  | _ => none

/-- `typeof v === "object" && v !== null && !Array.isArray(v)`. -/
def isPlainObject : JsonValue → Bool
  | .jobj _ => true
  | _ => false

def asString : Option JsonValue → Option String
  | some (.jstr s) => some s
  | _ => none

def asNumber : Option JsonValue → Option Rat
  | some (.jnum q) => some q
  | _ => none

/-- `isPositiveInteger` from `utils.ts` on a number. -/
def isPositiveRatInt (q : Rat) : Bool :=
  q.den == 1 && 1 ≤ q

/-- `VALID_SEVERITIES.has` as a parser. -/
def parseSeverity (s : String) : Option Severity :=
  if s = "error" then some Severity.error
  else if s = "warn" then some Severity.warn
  else if s = "info" then some Severity.info
  else none

/-- A validated diagnostic (`BackendDiagnostic` of `types.ts`). -/
structure BackendDiagnostic where
  rule_id : String
  severity : Severity
  message : String
  file : String
  line : Rat
  column : Option Rat := none
  end_line : Option Rat := none
  end_column : Option Rat := none
  evidence : Option String := none
  confidence : Option Rat := none
deriving Repr, DecidableEq

/-- Model of `path.resolve(baseDir, file)`: absolute paths stand alone,
relative ones are joined under the base directory. -/
def resolvePathModel (baseDir file : String) : String :=
  if strStartsWith file "/" then file else ⟨baseDir.data ++ '/' :: file.data⟩

/-- An optional positive-integer field: copied only when well-typed. -/
def posIntField (j : Option JsonValue) : Option Rat :=
  match asNumber j with
  | some q => if isPositiveRatInt q then some q else none
  | none => none

/-- Validation of one raw entry, translated from the body of
`normalizeDiagnostics`'s `flatMap`: plain object, `rule_id` equal to the
issuing rule, non-blank `file` and `message` strings, a valid severity, a
positive integer `line`, and an existing resolved file; optional fields
are copied only when individually well-typed.  (The debug logging of the
source carries no data flow and is not modelled.) -/
def normalizeEntry (ruleId : String) (fileExists : String → Bool) (baseDir : String)
    (raw : JsonValue) : List BackendDiagnostic :=
  match raw with
  | .jobj _ =>
    match asString (jsonField raw "rule_id"), asString (jsonField raw "file"),
      asString (jsonField raw "message"), asString (jsonField raw "severity"),
      asNumber (jsonField raw "line") with
    | some rid, some fileStr, some msg, some sevStr, some lineNum =>
      if rid = ruleId && strTrim fileStr != "" && strTrim msg != "" &&
          (parseSeverity sevStr).isSome && isPositiveRatInt lineNum then
        if fileExists (resolvePathModel baseDir fileStr) then
          [{ rule_id := rid
             severity := (parseSeverity sevStr).getD Severity.info
             message := msg
             file := fileStr
             line := lineNum
             column := posIntField (jsonField raw "column")
             end_line := posIntField (jsonField raw "end_line")
             end_column := posIntField (jsonField raw "end_column")
             evidence := asString (jsonField raw "evidence")
             confidence := asNumber (jsonField raw "confidence") }]
        else []
      else []
    | _, _, _, _, _ => []
  | _ => []

/-- `normalizeDiagnostics` from `diagnostics.ts`: the filesystem is
modelled by the `fileExists` oracle over resolved paths; `resolveRoot` is
the optional repository root, `cwd` the working directory used when it is
absent or empty. -/
def normalizeDiagnostics (ruleId : String) (diagnostics : List JsonValue)
    (fileExists : String → Bool) (cwd : String) (resolveRoot : Option String) :
    List BackendDiagnostic :=
  let baseDir :=
    match resolveRoot with
    | some r => if r.length > 0 then r else cwd
    | none => cwd
  (diagnostics.map (normalizeEntry ruleId fileExists baseDir)).flatten

/-- The keep-condition of claim C7, written from its words (with *non-blank*
in place of *non-empty*, the single amendment the code forces): a plain
object whose `rule_id` string equals the issuing rule's id, whose `file`
and `message` are non-blank strings, whose severity is one of
error/warn/info, whose `line` is a positive integer and whose `file`
resolves to an existing path under the root. -/
def c7Kept (ruleId : String) (fileExists : String → Bool) (baseDir : String)
    (raw : JsonValue) : Bool :=
  isPlainObject raw &&
  (match asString (jsonField raw "rule_id") with
   | some rid => rid == ruleId
   | none => false) &&
  (match asString (jsonField raw "file") with
   | some f => strTrim f != "" && fileExists (resolvePathModel baseDir f)
   | none => false) &&
  (match asString (jsonField raw "message") with
   | some m => strTrim m != ""
   | none => false) &&
  (match asString (jsonField raw "severity") with
   | some s => (parseSeverity s).isSome
   | none => false) &&
  (match asNumber (jsonField raw "line") with
   | some q => isPositiveRatInt q
   | none => false)

/-- The diagnostic built from a kept entry, per claim C7: required fields
copied, each optional field copied exactly when individually well-typed. -/
def c7Build (raw : JsonValue) : BackendDiagnostic :=
  { rule_id := (asString (jsonField raw "rule_id")).getD ""
    severity :=
      (parseSeverity ((asString (jsonField raw "severity")).getD "")).getD Severity.info
    message := (asString (jsonField raw "message")).getD ""
    file := (asString (jsonField raw "file")).getD ""
    line := (asNumber (jsonField raw "line")).getD 1
    column := posIntField (jsonField raw "column")
    end_line := posIntField (jsonField raw "end_line")
    end_column := posIntField (jsonField raw "end_column")
    evidence := asString (jsonField raw "evidence")
    confidence := asNumber (jsonField raw "confidence") }

/-- Claim C7's characterization of the normalizer: keep exactly the entries
satisfying `c7Kept`, each mapped to `c7Build`. -/
def normalizeDiagnosticsSpec (ruleId : String) (diagnostics : List JsonValue)
    (fileExists : String → Bool) (cwd : String) (resolveRoot : Option String) :
    List BackendDiagnostic :=
  let baseDir :=
    match resolveRoot with
    | some r => if r.length > 0 then r else cwd
    | none => cwd
  diagnostics.filterMap fun raw =>
    if c7Kept ruleId fileExists baseDir raw then some (c7Build raw) else none

/-- Claim C7's characterization with its literal *non-empty* wording for
`file` and `message` (refuted below). -/
def c7KeptLiteral (ruleId : String) (fileExists : String → Bool) (baseDir : String)
    (raw : JsonValue) : Bool :=
  isPlainObject raw &&
  (match asString (jsonField raw "rule_id") with
   | some rid => rid == ruleId
   | none => false) &&
  (match asString (jsonField raw "file") with
   | some f => f != "" && fileExists (resolvePathModel baseDir f)
   | none => false) &&
  (match asString (jsonField raw "message") with
   | some m => m != ""
   | none => false) &&
  (match asString (jsonField raw "severity") with
   | some s => (parseSeverity s).isSome
   | none => false) &&
  (match asNumber (jsonField raw "line") with
   | some q => isPositiveRatInt q
   | none => false)

def normalizeDiagnosticsClaimLiteral (ruleId : String) (diagnostics : List JsonValue)
    (fileExists : String → Bool) (cwd : String) (resolveRoot : Option String) :
    List BackendDiagnostic :=
  let baseDir :=
    match resolveRoot with
    | some r => if r.length > 0 then r else cwd
    | none => cwd
  diagnostics.filterMap fun raw =>
    if c7KeptLiteral ruleId fileExists baseDir raw then some (c7Build raw) else none

/-- C7 counterexample: an entry whose `message` is the non-empty but blank
string `" "` satisfies the claim's literal keep-condition (message a
non-empty string, everything else valid, file existing), yet the code
drops it: `normalizeDiagnostics` requires `message.trim() !== ""`. -/
theorem C7_counterexample :
    normalizeDiagnostics "r"
      [JsonValue.jobj [("rule_id", JsonValue.jstr "r"),
        ("severity", JsonValue.jstr "warn"), ("file", JsonValue.jstr "a.ts"),
        ("message", JsonValue.jstr " "), ("line", JsonValue.jnum 1)]]
      (fun _ => true) "" none = [] ∧
    normalizeDiagnosticsClaimLiteral "r"
      [JsonValue.jobj [("rule_id", JsonValue.jstr "r"),
        ("severity", JsonValue.jstr "warn"), ("file", JsonValue.jstr "a.ts"),
        ("message", JsonValue.jstr " "), ("line", JsonValue.jnum 1)]]
      (fun _ => true) "" none ≠ [] ∧
    normalizeDiagnostics "r"
      [JsonValue.jobj [("rule_id", JsonValue.jstr "r"),
        ("severity", JsonValue.jstr "warn"), ("file", JsonValue.jstr "a.ts"),
        ("message", JsonValue.jstr " "), ("line", JsonValue.jnum 1)]]
      (fun _ => true) "" none ≠
      normalizeDiagnosticsClaimLiteral "r"
        [JsonValue.jobj [("rule_id", JsonValue.jstr "r"),
          ("severity", JsonValue.jstr "warn"), ("file", JsonValue.jstr "a.ts"),
          ("message", JsonValue.jstr " "), ("line", JsonValue.jnum 1)]]
        (fun _ => true) "" none := by
  refine ⟨by decide, by decide, by decide⟩

theorem normalizeEntry_eq_spec (ruleId : String) (fe : String → Bool) (bd : String)
    (raw : JsonValue) :
    normalizeEntry ruleId fe bd raw =
      if c7Kept ruleId fe bd raw then [c7Build raw] else [] := by
  cases raw with
  | jnull => rfl
  | jbool b => rfl
  | jnum q => rfl
  | jstr s => rfl
  | jarr xs => rfl
  | jobj fields =>
    unfold normalizeEntry c7Kept c7Build
    cases hrid : asString (jsonField (JsonValue.jobj fields) "rule_id") with
    | none => simp [hrid]
    | some rid =>
      cases hfile : asString (jsonField (JsonValue.jobj fields) "file") with
      | none => simp [hrid, hfile]
      | some f =>
        cases hmsg : asString (jsonField (JsonValue.jobj fields) "message") with
        | none => simp [hrid, hfile, hmsg]
        | some m =>
          cases hsev : asString (jsonField (JsonValue.jobj fields) "severity") with
          | none => simp [hrid, hfile, hmsg, hsev]
          | some s =>
            cases hline : asNumber (jsonField (JsonValue.jobj fields) "line") with
            | none => simp [hrid, hfile, hmsg, hsev, hline]
            | some q =>
              simp only [hrid, hfile, hmsg, hsev, hline, isPlainObject,
                Bool.true_and, Option.getD_some]
              by_cases heq : rid = ruleId
              · subst heq
                cases htf : strTrim f != "" <;>
                  cases htm : strTrim m != "" <;>
                    cases hps : (parseSeverity s).isSome <;>
                      cases hpi : isPositiveRatInt q <;>
                        cases hfe : fe (resolvePathModel bd f) <;>
                          simp [htf, htm, hps, hpi, hfe]
              · have hbeq : (rid == ruleId) = false := by
                  simpa using heq
                simp [heq, hbeq]

/-- C7 (amended: *non-blank* instead of *non-empty* for `file` and
`message`): `normalizeDiagnostics` keeps a raw entry if and only if it is a
plain object whose `rule_id` equals the issuing rule's id, whose `file` and
`message` are non-blank strings, whose severity is valid, whose `line` is a
positive integer and whose `file` resolves to an existing path under the
given root (or the working directory when no root is given); kept entries
copy each optional field exactly when it is individually well-typed,
without a malformed optional field dropping the entry. -/
theorem C7_normalize_characterization (ruleId : String) (diagnostics : List JsonValue)
    (fileExists : String → Bool) (cwd : String) (resolveRoot : Option String) :
    normalizeDiagnostics ruleId diagnostics fileExists cwd resolveRoot =
      normalizeDiagnosticsSpec ruleId diagnostics fileExists cwd resolveRoot := by
  show ((diagnostics.map (normalizeEntry ruleId fileExists _)).flatten =
    diagnostics.filterMap fun raw =>
      if c7Kept ruleId fileExists _ raw then some (c7Build raw) else none)
  induction diagnostics with
  | nil => rfl
  | cons raw rest ih =>
    simp only [List.map_cons, List.flatten_cons, List.filterMap_cons]
    rw [normalizeEntry_eq_spec]
    split
    · simp [ih]
    · simp [ih]

/-! ## Diagnostic sorting (`sortDiagnostics`) -/

/-- `SEVERITY_ORDER` from `diagnostics.ts`. -/
def sevOrderNum : Severity → Rat
  | Severity.error => 3
  | Severity.warn => 2
  | Severity.info => 1

/-- The comparator of `sortDiagnostics`: `localeCompare` on files, then
line difference, then severity rank descending. -/
def cmpDiag (a b : BackendDiagnostic) : Rat :=
  let fileCompare := strCompare a.file b.file
  if fileCompare ≠ 0 then (fileCompare : Rat)
  else if a.line ≠ b.line then a.line - b.line
  else sevOrderNum b.severity - sevOrderNum a.severity

/-- The ordering claim C8 describes: file lexicographically ascending, then
line ascending, then severity descending. -/
def claimDiagOrder (a b : BackendDiagnostic) : Prop :=
  strCompare a.file b.file < 0 ∨
    (a.file = b.file ∧
      (a.line < b.line ∨
        (a.line = b.line ∧ sevOrderNum b.severity ≤ sevOrderNum a.severity)))

theorem cmpCharsInt_cons_eq (a b : Char) (as bs : List Char) :
    cmpCharsInt (a :: as) (b :: bs) =
      if a < b then -1 else if b < a then 1 else cmpCharsInt as bs := rfl

theorem cmpCharsInt_eq_zero_iff : ∀ x y : List Char, cmpCharsInt x y = 0 ↔ x = y := by
  intro x
  induction x with
  | nil => intro y; cases y <;> simp [cmpCharsInt]
  | cons a as ih =>
    intro y
    cases y with
    | nil => simp [cmpCharsInt]
    | cons b bs =>
      rw [cmpCharsInt_cons_eq]
      by_cases h1 : a < b
      · rw [if_pos h1]
        constructor
        · intro h; exact absurd h (by decide)
        · intro h
          injection h with h h'
          exact absurd (h ▸ h1) (lt_irrefl b)
      · rw [if_neg h1]
        by_cases h2 : b < a
        · rw [if_pos h2]
          constructor
          · intro h; exact absurd h (by decide)
          · intro h
            injection h with h h'
            exact absurd (h ▸ h2) (lt_irrefl b)
        · rw [if_neg h2]
          have hab : a = b := le_antisymm (not_lt.mp h2) (not_lt.mp h1)
          rw [ih bs]
          constructor
          · intro h; rw [hab, h]
          · intro h
            cases h
            rfl

theorem cmpCharsInt_neg : ∀ x y : List Char, cmpCharsInt x y = -cmpCharsInt y x := by
  intro x
  induction x with
  | nil => intro y; cases y <;> simp [cmpCharsInt]
  | cons a as ih =>
    intro y
    cases y with
    | nil => simp [cmpCharsInt]
    | cons b bs =>
      rw [cmpCharsInt_cons_eq, cmpCharsInt_cons_eq]
      by_cases h1 : a < b
      · rw [if_pos h1, if_neg (lt_asymm h1), if_pos h1]
      · rw [if_neg h1]
        by_cases h2 : b < a
        · rw [if_pos h2, if_pos h2]
          rfl
        · rw [if_neg h2, if_neg h1, if_neg h2, ih bs]

theorem cmpCharsInt_cons_lt {a b : Char} {as bs : List Char} :
    cmpCharsInt (a :: as) (b :: bs) < 0 ↔ a < b ∨ (a = b ∧ cmpCharsInt as bs < 0) := by
  rw [cmpCharsInt_cons_eq]
  by_cases h1 : a < b
  · rw [if_pos h1]
    constructor
    · intro _; exact Or.inl h1
    · intro _; decide
  · rw [if_neg h1]
    by_cases h2 : b < a
    · rw [if_pos h2]
      constructor
      · intro h; exact absurd h (by decide)
      · intro h
        rcases h with h | ⟨h, _⟩
        · exact absurd h h1
        · exact absurd (h ▸ h2) (lt_irrefl b)
    · rw [if_neg h2]
      have hab : a = b := le_antisymm (not_lt.mp h2) (not_lt.mp h1)
      constructor
      · intro h; exact Or.inr ⟨hab, h⟩
      · intro h
        rcases h with h | ⟨_, h⟩
        · exact absurd h h1
        · exact h

theorem cmpCharsInt_lt_trans : ∀ x y z : List Char,
    cmpCharsInt x y < 0 → cmpCharsInt y z < 0 → cmpCharsInt x z < 0 := by
  intro x
  induction x with
  | nil =>
    intro y z hxy hyz
    cases y with
    | nil => exact absurd hxy (by simp [cmpCharsInt])
    | cons b bs =>
      cases z with
      | nil => exact absurd hyz (by simp [cmpCharsInt])
      | cons c cs => simp [cmpCharsInt]
  | cons a as ih =>
    intro y z hxy hyz
    cases y with
    | nil => exact absurd hxy (by simp [cmpCharsInt])
    | cons b bs =>
      cases z with
      | nil => exact absurd hyz (by simp [cmpCharsInt])
      | cons c cs =>
        rw [cmpCharsInt_cons_lt] at hxy hyz ⊢
        rcases hxy with hab | ⟨hab, hxy2⟩
        · rcases hyz with hbc | ⟨hbc, _⟩
          · exact Or.inl (lt_trans hab hbc)
          · exact Or.inl (hbc ▸ hab)
        · rcases hyz with hbc | ⟨hbc, hyz2⟩
          · exact Or.inl (hab ▸ hbc)
          · exact Or.inr ⟨hab.trans hbc, ih bs cs hxy2 hyz2⟩

theorem strCompare_eq_zero_iff (a b : String) : strCompare a b = 0 ↔ a = b := by
  unfold strCompare
  rw [cmpCharsInt_eq_zero_iff]
  constructor
  · exact String.ext
  · intro h; rw [h]

theorem cmpDiag_le_iff (a b : BackendDiagnostic) :
    cmpDiag a b ≤ 0 ↔ claimDiagOrder a b := by
  unfold cmpDiag claimDiagOrder
  by_cases hf : strCompare a.file b.file = 0
  · have hfeq : a.file = b.file := (strCompare_eq_zero_iff _ _).mp hf
    rw [if_neg (by simpa using hf)]
    by_cases hl : a.line = b.line
    · rw [if_neg (by simpa using hl)]
      constructor
      · intro h
        exact Or.inr ⟨hfeq, Or.inr ⟨hl, by linarith [sub_nonpos.mp h]⟩⟩
      · intro h
        rcases h with h | ⟨_, h | ⟨_, hsev⟩⟩
        · exact absurd hf (by intro hc; rw [hc] at h; exact absurd h (lt_irrefl 0))
        · exact absurd h (by rw [hl]; exact lt_irrefl b.line)
        · exact sub_nonpos.mpr hsev
    · rw [if_pos (by simpa using hl)]
      constructor
      · intro h
        exact Or.inr ⟨hfeq, Or.inl (lt_of_le_of_ne (by linarith [sub_nonpos.mp h]) hl)⟩
      · intro h
        rcases h with h | ⟨_, h | ⟨h, _⟩⟩
        · exact absurd hf (by intro hc; rw [hc] at h; exact absurd h (lt_irrefl 0))
        · linarith
        · exact absurd h hl
  · rw [if_pos (by simpa using hf)]
    constructor
    · intro h
      have : strCompare a.file b.file ≤ 0 := by exact_mod_cast h
      exact Or.inl (lt_of_le_of_ne this hf)
    · intro h
      rcases h with h | ⟨hfeq, _⟩
      · exact_mod_cast le_of_lt h
      · exact absurd ((strCompare_eq_zero_iff _ _).mpr hfeq) hf

/-- Executable form of the comparator decision (subtraction-free, so that
the kernel can evaluate it on concrete diagnostics). -/
def claimDiagOrderB (a b : BackendDiagnostic) : Bool :=
  if strCompare a.file b.file < 0 then true
  else if strCompare a.file b.file = 0 then
    if a.line < b.line then true
    else if a.line = b.line then
      decide (sevOrderNum b.severity ≤ sevOrderNum a.severity)
    else false
  else false

theorem claimDiagOrderB_iff (a b : BackendDiagnostic) :
    claimDiagOrderB a b = true ↔ claimDiagOrder a b := by
  unfold claimDiagOrderB claimDiagOrder
  by_cases h1 : strCompare a.file b.file < 0
  · simp only [if_pos h1]
    constructor
    · intro _; exact Or.inl h1
    · intro _; trivial
  · rw [if_neg h1]
    by_cases h2 : strCompare a.file b.file = 0
    · rw [if_pos h2]
      have hfeq : a.file = b.file := (strCompare_eq_zero_iff _ _).mp h2
      by_cases h3 : a.line < b.line
      · simp only [if_pos h3]
        constructor
        · intro _; exact Or.inr ⟨hfeq, Or.inl h3⟩
        · intro _; trivial
      · rw [if_neg h3]
        by_cases h4 : a.line = b.line
        · rw [if_pos h4]
          constructor
          · intro h
            exact Or.inr ⟨hfeq, Or.inr ⟨h4, of_decide_eq_true h⟩⟩
          · intro h
            rcases h with h | ⟨_, h | ⟨_, h⟩⟩
            · exact absurd h h1
            · exact absurd h h3
            · exact decide_eq_true h
        · rw [if_neg h4]
          constructor
          · intro h; exact absurd h (by simp)
          · intro h
            rcases h with h | ⟨_, h | ⟨h, _⟩⟩
            · exact absurd h h1
            · exact absurd h h3
            · exact absurd h h4
    · rw [if_neg h2]
      constructor
      · intro h; exact absurd h (by simp)
      · intro h
        rcases h with h | ⟨hfeq, _⟩
        · exact absurd h h1
        · exact absurd ((strCompare_eq_zero_iff _ _).mpr hfeq) h2

/-- Decidability of the comparator's sign through the executable form. -/
instance cmpDiagLeDec (a b : BackendDiagnostic) : Decidable (cmpDiag a b ≤ 0) :=
  decidable_of_iff (claimDiagOrderB a b = true)
    ((claimDiagOrderB_iff a b).trans (cmpDiag_le_iff a b).symm)

/-- `sortDiagnostics` from `diagnostics.ts`: JavaScript `Array.prototype.sort`
is stable (ECMA-262), modelled by a stable insertion sort with respect to
the comparator. -/
def sortDiagnostics (input : List BackendDiagnostic) : List BackendDiagnostic :=
  List.insertionSort (fun a b => cmpDiag a b ≤ 0) input

theorem claimDiagOrder_trans {a b c : BackendDiagnostic} (hab : claimDiagOrder a b)
    (hbc : claimDiagOrder b c) : claimDiagOrder a c := by
  unfold claimDiagOrder at hab hbc ⊢
  rcases hab with hab | ⟨hfab, hrab⟩
  · rcases hbc with hbc | ⟨hfbc, _⟩
    · exact Or.inl (cmpCharsInt_lt_trans _ _ _ hab hbc)
    · exact Or.inl (hfbc ▸ hab)
  · rcases hbc with hbc | ⟨hfbc, hrbc⟩
    · exact Or.inl (by rw [hfab]; exact hbc)
    · refine Or.inr ⟨hfab.trans hfbc, ?_⟩
      rcases hrab with hl | ⟨hleq, hs⟩
      · rcases hrbc with hl2 | ⟨hleq2, _⟩
        · exact Or.inl (lt_trans hl hl2)
        · exact Or.inl (hleq2 ▸ hl)
      · rcases hrbc with hl2 | ⟨hleq2, hs2⟩
        · exact Or.inl (hleq ▸ hl2)
        · exact Or.inr ⟨hleq.trans hleq2, le_trans hs2 hs⟩

theorem claimDiagOrder_total (a b : BackendDiagnostic) :
    claimDiagOrder a b ∨ claimDiagOrder b a := by
  unfold claimDiagOrder
  rcases lt_trichotomy (strCompare a.file b.file) 0 with hf | hf | hf
  · exact Or.inl (Or.inl hf)
  · have hfeq : a.file = b.file := (strCompare_eq_zero_iff _ _).mp hf
    rcases lt_trichotomy a.line b.line with hl | hl | hl
    · exact Or.inl (Or.inr ⟨hfeq, Or.inl hl⟩)
    · rcases le_total (sevOrderNum b.severity) (sevOrderNum a.severity) with hs | hs
      · exact Or.inl (Or.inr ⟨hfeq, Or.inr ⟨hl, hs⟩⟩)
      · exact Or.inr (Or.inr ⟨hfeq.symm, Or.inr ⟨hl.symm, hs⟩⟩)
    · exact Or.inr (Or.inr ⟨hfeq.symm, Or.inl hl⟩)
  · have : strCompare b.file a.file < 0 := by
      unfold strCompare
      rw [cmpCharsInt_neg]
      unfold strCompare at hf
      omega
    exact Or.inr (Or.inl this)

instance cmpDiagLeTrans : IsTrans BackendDiagnostic (fun a b => cmpDiag a b ≤ 0) :=
  ⟨fun a b c hab hbc => (cmpDiag_le_iff a c).mpr
    (claimDiagOrder_trans ((cmpDiag_le_iff a b).mp hab) ((cmpDiag_le_iff b c).mp hbc))⟩

instance cmpDiagLeTotal : IsTotal BackendDiagnostic (fun a b => cmpDiag a b ≤ 0) :=
  ⟨fun a b => by
    rcases claimDiagOrder_total a b with h | h
    · exact Or.inl ((cmpDiag_le_iff a b).mpr h)
    · exact Or.inr ((cmpDiag_le_iff b a).mpr h)⟩

/-- Equality on the three sort keys. -/
def sameKeyB (d d0 : BackendDiagnostic) : Bool :=
  d.file == d0.file && d.line == d0.line && d.severity == d0.severity

theorem cmpDiag_of_sameKey {x y d0 : BackendDiagnostic} (hx : sameKeyB x d0 = true)
    (hy : sameKeyB y d0 = true) : cmpDiag x y ≤ 0 := by
  unfold sameKeyB at hx hy
  simp only [Bool.and_eq_true, beq_iff_eq] at hx hy
  obtain ⟨⟨hxf, hxl⟩, hxs⟩ := hx
  obtain ⟨⟨hyf, hyl⟩, hys⟩ := hy
  unfold cmpDiag
  have hfeq : x.file = y.file := hxf.trans hyf.symm
  rw [if_neg (by
    simp only [ne_eq, not_not]
    exact (strCompare_eq_zero_iff _ _).mpr hfeq)]
  rw [if_neg (by
    simp only [ne_eq, not_not]
    exact hxl.trans hyl.symm)]
  rw [hxs.trans hys.symm]
  simp

theorem sortDiagnostics_stable (l : List BackendDiagnostic) (d0 : BackendDiagnostic) :
    (sortDiagnostics l).filter (fun d => sameKeyB d d0) =
      l.filter (fun d => sameKeyB d d0) := by
  have hpair : (l.filter fun d => sameKeyB d d0).Pairwise (fun a b => cmpDiag a b ≤ 0) :=
    List.pairwise_of_forall_mem_list (by
      intro x hx y hy
      exact cmpDiag_of_sameKey (List.mem_filter.mp hx).2 (List.mem_filter.mp hy).2)
  have hsub : List.Sublist (l.filter fun d => sameKeyB d d0) (sortDiagnostics l) :=
    List.sublist_insertionSort hpair (List.filter_sublist l)
  have hceq : ((l.filter fun d => sameKeyB d d0).filter fun d => sameKeyB d d0) =
      (l.filter fun d => sameKeyB d d0) :=
    List.filter_eq_self.mpr fun a ha => (List.mem_filter.mp ha).2
  have hsub2 : List.Sublist (l.filter fun d => sameKeyB d d0)
      ((sortDiagnostics l).filter fun d => sameKeyB d d0) :=
    hceq ▸ List.Sublist.filter _ hsub
  have hperm : ((sortDiagnostics l).filter fun d => sameKeyB d d0).Perm
      (l.filter fun d => sameKeyB d d0) :=
    (List.perm_insertionSort _ l).filter _
  exact (List.Sublist.eq_of_length hsub2 hperm.length_eq.symm).symm

/-- C8: `sortDiagnostics` returns a permutation of its input ordered by
file (lexicographic ascending), then line (ascending), then severity
(descending, error > warn > info); the sort is stable — diagnostics equal
on all three keys keep their original relative order — and the claim's
concrete example sorts as stated. -/
theorem C8_sort_order (l : List BackendDiagnostic) :
    (sortDiagnostics l).Perm l ∧
    (sortDiagnostics l).Pairwise claimDiagOrder ∧
    (∀ d0 : BackendDiagnostic,
      (sortDiagnostics l).filter (fun d => sameKeyB d d0) =
        l.filter (fun d => sameKeyB d d0)) ∧
    sortDiagnostics
      [{ rule_id := "", severity := Severity.warn, message := "", file := "b.ts", line := 5 },
       { rule_id := "", severity := Severity.error, message := "", file := "a.ts", line := 9 },
       { rule_id := "", severity := Severity.warn, message := "", file := "a.ts", line := 9 }] =
      [{ rule_id := "", severity := Severity.error, message := "", file := "a.ts", line := 9 },
       { rule_id := "", severity := Severity.warn, message := "", file := "a.ts", line := 9 },
       { rule_id := "", severity := Severity.warn, message := "", file := "b.ts", line := 5 }] := by
  refine ⟨List.perm_insertionSort _ l, ?_, sortDiagnostics_stable l, by decide⟩
  exact (List.sorted_insertionSort (fun a b => cmpDiag a b ≤ 0) l).imp
    fun hab => (cmpDiag_le_iff _ _).mp hab

/-! ## Dispatch Engine (`dispatch.ts`) -/

/-- Join with an arbitrary separator (JavaScript `Array.prototype.join`). -/
def joinSep (sep : String) : List String → String
  | [] => ""
  | [x] => x
  | x :: xs => x ++ sep ++ joinSep sep xs

def sevString : Severity → String
  | Severity.error => "error"
  | Severity.warn => "warn"
  | Severity.info => "info"

/-- Input of one backend prompt invocation (`RunPromptInput`). -/
structure RunPromptInput where
  label : String
  prompt : String
  timeoutMs : Nat

/-- Input of one per-rule backend invocation (`RunRuleInput`). -/
structure RunRuleInput where
  ruleId : String
  prompt : String
  timeoutMs : Nat

/-- The backend collaborator, modelled as response oracles: a call either
delivers the raw diagnostics array of a parsed response or fails
irrecoverably (both the primary attempt and the single stricter-instruction
retry failed — the thrown error of `runWithRetry`). -/
structure BackendRunner where
  runPromptFn : RunPromptInput → Except String (List JsonValue)
  runRuleFn : RunRuleInput → Except String (List JsonValue)

/-- Everything `runBatchDispatch` / `runParallelDispatch` receive
(`DispatchInput` plus the modelled collaborators: prompt templates are
external files, rendered by oracles; the filesystem by `fileExists`). -/
structure DispatchInput where
  rules : List LoadedRule
  diff : String
  changedFiles : List String
  backend : BackendRunner
  timeoutMs : Nat
  rulesIncludeGlobs : List String
  rulesExcludeGlobs : List String
  repoRoot : Option String
  cwd : String
  fileExists : String → Bool
  renderRulePromptFn : String → String → String → String → String → String
  renderBatchPromptFn : String → String → String

structure DispatchResult where
  diagnostics : List BackendDiagnostic
  backendErrors : Nat
deriving Repr, DecidableEq

/-- `buildRulePrompt` from `filter.ts` (the template file is the rendering
oracle's concern). -/
def buildRulePrompt (render : String → String → String → String → String → String)
    (rule : LoadedRule) (diff : String) : String :=
  render rule.id rule.title (sevString rule.effectiveSeverity) rule.prompt diff

/-- `buildBatchPrompt` from `dispatch.ts`. -/
def buildBatchPrompt (render : String → String → String)
    (rules : List LoadedRule) (diff : String) : String :=
  let ruleBlocks := joinSep "\n\n---\n\n" (rules.map fun rule =>
    joinWithNewlines ["RULE_ID: " ++ rule.id, "RULE_TITLE: " ++ rule.title,
      "SEVERITY_DEFAULT: " ++ sevString rule.effectiveSeverity, "INSTRUCTIONS:",
      rule.prompt])
  render ruleBlocks diff

/-- The grouping of the batch response by self-reported `rule_id`
(`groupedByRule.get(rule.id) ?? []`): the entries that are plain objects
with this string `rule_id`, in response order; other entries are dropped
(logged only). -/
def groupForRule (diags : List JsonValue) (rid : String) : List JsonValue :=
  diags.filter fun j =>
    isPlainObject j &&
      (match asString (jsonField j "rule_id") with
       | some s => s == rid
       | none => false)

/-- `runBatchDispatch` from `dispatch.ts`. -/
def runBatchDispatch (input : DispatchInput) : DispatchResult :=
  let combinedDiff := joinWithNewlines ((input.rules.map fun r =>
    buildScopedDiff r input.diff input.changedFiles input.rulesIncludeGlobs
      input.rulesExcludeGlobs).filter fun chunk => strTrim chunk != "")
  let batchPrompt := buildBatchPrompt input.renderBatchPromptFn input.rules
    (if combinedDiff = "" then input.diff else combinedDiff)
  match input.backend.runPromptFn ⟨"Batch", batchPrompt, input.timeoutMs⟩ with
  | Except.ok batchDiags =>
    ⟨(input.rules.map fun r =>
        normalizeDiagnostics r.id (groupForRule batchDiags r.id) input.fileExists
          input.cwd input.repoRoot).flatten, 0⟩
  | Except.error _ => ⟨[], 1⟩

/-- `runParallelDispatch` from `dispatch.ts`: the concurrent fan-out is
modelled as a map (each rule's result is independent of its siblings; the
join order is the rule order). -/
def runParallelDispatch (input : DispatchInput) : DispatchResult :=
  let runResults := input.rules.map fun r =>
    match input.backend.runRuleFn ⟨r.id,
      buildRulePrompt input.renderRulePromptFn r
        (buildScopedDiff r input.diff input.changedFiles input.rulesIncludeGlobs
          input.rulesExcludeGlobs),
      input.timeoutMs⟩ with
    | Except.ok ds =>
      (false, normalizeDiagnostics r.id ds input.fileExists input.cwd input.repoRoot)
    | Except.error _ => (true, ([] : List BackendDiagnostic))
  ⟨(runResults.map Prod.snd).flatten, (runResults.filter Prod.fst).length⟩

/-- The backend call `runParallelDispatch` makes for one rule. -/
def ruleCall (input : DispatchInput) (r : LoadedRule) : Except String (List JsonValue) :=
  input.backend.runRuleFn ⟨r.id,
    buildRulePrompt input.renderRulePromptFn r
      (buildScopedDiff r input.diff input.changedFiles input.rulesIncludeGlobs
        input.rulesExcludeGlobs),
    input.timeoutMs⟩

/-- C9: in parallel mode, a rule whose backend call fails irrecoverably
(primary plus stricter retry, the `Except.error` outcome) contributes zero
diagnostics and exactly one backend error, without affecting sibling rules,
whose normalized diagnostics are all preserved in rule order; the final
`backendErrors` equals exactly the number of rules whose calls failed.  In
batch mode a failing call yields zero diagnostics for the whole batch and a
backend-error count of exactly one. -/
theorem C9_backend_failure (input : DispatchInput) (e : String) :
    (runParallelDispatch input).backendErrors =
      (input.rules.filter fun r => !(ruleCall input r).isOk).length ∧
    (runParallelDispatch input).diagnostics =
      (input.rules.map fun r =>
        match ruleCall input r with
        | Except.ok ds => normalizeDiagnostics r.id ds input.fileExists input.cwd input.repoRoot
        | Except.error _ => []).flatten ∧
    runBatchDispatch
      { input with backend := { input.backend with runPromptFn := fun _ => Except.error e } } =
      ⟨[], 1⟩ := by
  refine ⟨?_, ?_, rfl⟩
  · show ((input.rules.map fun r =>
      match ruleCall input r with
      | Except.ok ds =>
        (false, normalizeDiagnostics r.id ds input.fileExists input.cwd input.repoRoot)
      | Except.error _ => (true, ([] : List BackendDiagnostic))).filter Prod.fst).length =
      (input.rules.filter fun r => !(ruleCall input r).isOk).length
    induction input.rules with
    | nil => rfl
    | cons r rest ih =>
      simp only [List.map_cons, List.filter_cons]
      cases hc : ruleCall input r with
      | ok ds => simpa [hc, Except.isOk, Except.toBool] using ih
      | error err => simpa [hc, Except.isOk, Except.toBool] using ih
  · show (((input.rules.map fun r =>
      match ruleCall input r with
      | Except.ok ds =>
        (false, normalizeDiagnostics r.id ds input.fileExists input.cwd input.repoRoot)
      | Except.error _ => (true, ([] : List BackendDiagnostic))).map Prod.snd).flatten) = _
    rw [List.map_map]
    congr 1
    apply List.map_congr_left
    intro r _
    cases hc : ruleCall input r with
    | ok ds => simp [hc]
    | error err => simp [hc]

/-! ## Rule gating and the driver (`filter.ts`, `main.ts`) -/

/-- The failure threshold (`FailOn` of `types.ts`). -/
inductive FailOn where
  | error
  | warn
  | never
deriving Repr, DecidableEq

/-- `hasBlockingDiagnostic` from `diagnostics.ts`. -/
def hasBlockingDiagnostic (diagnostics : List BackendDiagnostic)
    (threshold : FailOn) : Bool :=
  match threshold with
  | FailOn.never => false
  | FailOn.warn =>
    diagnostics.any fun d => d.severity == Severity.warn || d.severity == Severity.error
  | FailOn.error => diagnostics.any fun d => d.severity == Severity.error

/-- `extractChangedFilesFromDiff` from `filter.ts`: the new-side path of
every parseable header, except `/dev/null`, deduplicated in insertion
order. -/
def extractChangedFilesFromDiff (diff : String) : List String :=
  dedupFirst ((splitOnNewlines diff).filterMap fun line =>
    if isHeaderLine line then
      match parseDiffGitHeader line with
      | some p => if p.bPath ≠ "/dev/null" then some p.bPath else none
      | none => none
    else none)

/-- `matchesAnyRegex` from `filter.ts`: each pattern compiled with the `m`
flag; an invalid pattern aborts the loop, returning no match (the
`catch` returns `false` for the whole call). -/
def matchesAnyRegex (diff : String) : List String → Bool
  | [] => false
  | c :: rest =>
    match compileRegex c with
    | none => false
    | some m => if regexTestMultiline m diff then true else matchesAnyRegex diff rest

/-- `shouldRunRule` from `filter.ts`. -/
def shouldRunRule (rule : LoadedRule) (changedFiles : List String) (diff : String)
    (globalIncludeGlobs : List String := []) (globalExcludeGlobs : List String := []) :
    Bool :=
  let fileCandidates :=
    getRuleCandidateFiles rule changedFiles globalIncludeGlobs globalExcludeGlobs
  if fileCandidates.length = 0 then false
  else
    match rule.diff_regex with
    | some regs =>
      if regs.length > 0 && !matchesAnyRegex diff regs then false else true
    | none => true

/-- Decimal rendering of a natural number (kernel-evaluable). -/
def natDigitsAux : Nat → Nat → List Char
  | _, 0 => ['0']
  | 0, _ => []
  | fuel + 1, n =>
    if n < 10 then [Char.ofNat ('0'.toNat + n)]
    else natDigitsAux fuel (n / 10) ++ [Char.ofNat ('0'.toNat + n % 10)]

def natToString (n : Nat) : String := ⟨natDigitsAux (n + 1) n⟩

/-- One reported secret-finding line of `runSemlint`
(`  file:line  kind  sample=redacted`). -/
def formatSecretFindingLine (f : SecretFinding) : String :=
  "  " ++ f.file ++ ":" ++ natToString f.line ++ "  " ++ f.kind ++
    "  sample=" ++ f.redactedSample

/-- The security section of the effective configuration. -/
structure SecurityConfig where
  secretGuard : Bool
  allowPatterns : List String
  ignoreFiles : List String
  allowFiles : List String

/-- The fields of `EffectiveConfig` the core pipeline reads. -/
structure EffectiveConfig where
  timeoutMs : Nat
  failOn : FailOn
  batchMode : Bool
  rulesIncludeGlobs : List String
  rulesExcludeGlobs : List String
  security : SecurityConfig

/-- The environment of one `runSemlint` invocation: the loaded
configuration and rules, the raw diff produced by git, the patterns read
from the ignore files, the outcome of the interactive confirmation, the
backend, the repository root and working directory, the file-existence
oracle and the prompt-template renderers — every external effect as an
explicit input. -/
structure RunEnv where
  config : EffectiveConfig
  rules : List LoadedRule
  rawDiff : String
  ignoreFilePatterns : List String
  confirmed : Bool
  backend : BackendRunner
  repoRoot : Option String
  cwd : String
  fileExists : String → Bool
  renderRulePromptFn : String → String → String → String → String → String
  renderBatchPromptFn : String → String → String

/-- The observable outcome of a run: the exit code, how many backend
invocations were dispatched, and the secret-finding lines written when the
guard blocks. -/
structure RunOutcome where
  exitCode : Nat
  backendInvocations : Nat
  secretReportLines : List String
deriving Repr, DecidableEq

def mkDispatchInput (env : RunEnv) (diff : String) (changedFiles : List String)
    (runnableRules : List LoadedRule) : DispatchInput :=
  { rules := runnableRules
    diff := diff
    changedFiles := changedFiles
    backend := env.backend
    timeoutMs := env.config.timeoutMs
    rulesIncludeGlobs := env.config.rulesIncludeGlobs
    rulesExcludeGlobs := env.config.rulesExcludeGlobs
    repoRoot := env.repoRoot
    cwd := env.cwd
    fileExists := env.fileExists
    renderRulePromptFn := env.renderRulePromptFn
    renderBatchPromptFn := env.renderBatchPromptFn }

/-- The part of `runSemlint` after the secret guard: changed files,
confirmation, rule gating (note: `main.ts` calls `shouldRunRule` without
the global glob lists), dispatch, sort, and the exit decision (backend
errors take precedence, then the blocking threshold).  The number of
backend invocations dispatched is recorded: one per runnable rule in
parallel mode, one per batch, none when no rule is runnable. -/
def runSemlintAfterGuard (env : RunEnv) (diff : String) : RunOutcome :=
  let changedFiles := extractChangedFilesFromDiff diff
  if !env.confirmed then
    { exitCode := 2, backendInvocations := 0, secretReportLines := [] }
  else
    let runnableRules := env.rules.filter fun r => shouldRunRule r changedFiles diff
    let result :=
      if runnableRules.length > 0 then
        if env.config.batchMode then
          runBatchDispatch (mkDispatchInput env diff changedFiles runnableRules)
        else runParallelDispatch (mkDispatchInput env diff changedFiles runnableRules)
      else ⟨[], 0⟩
    let sorted := sortDiagnostics result.diagnostics
    { exitCode :=
        if result.backendErrors > 0 then 2
        else if hasBlockingDiagnostic sorted env.config.failOn then 1
        else 0
      backendInvocations :=
        if runnableRules.length > 0 then
          if env.config.batchMode then 1 else runnableRules.length
        else 0
      secretReportLines := [] }

/-- `runSemlint` from `main.ts`: filter the raw diff by the ignore rules,
run the secret guard — a non-empty finding list aborts the run with exit
code 2 before any backend work, reporting the first twenty findings — then
continue with confirmation, dispatch and the exit decision. -/
def runSemlint (env : RunEnv) : RunOutcome :=
  let fr := filterDiffByIgnoreRules env.rawDiff env.ignoreFilePatterns
  let diff := fr.filteredDiff
  if env.config.security.secretGuard then
    let findings := scanDiffForSecrets diff env.config.security.allowPatterns
      env.config.security.allowFiles
    if findings.length > 0 then
      { exitCode := 2, backendInvocations := 0,
        secretReportLines := (findings.take 20).map formatSecretFindingLine }
    else runSemlintAfterGuard env diff
  else runSemlintAfterGuard env diff

/-- C1: whenever the secret guard is enabled and `scanDiffForSecrets`
returns at least one finding on the ignore-filtered diff, `runSemlint`
returns the outcome 2 — distinct from the blocking-diagnostics outcome 1
and the clean outcome 0 — no backend invocation occurs in the run, and the
findings are reported with their file, line, kind and redacted sample
(the first twenty, formatted as `file:line kind sample=...`). -/
theorem C1_secret_guard_blocks (env : RunEnv)
    (hguard : env.config.security.secretGuard = true)
    (hfind : scanDiffForSecrets
      (filterDiffByIgnoreRules env.rawDiff env.ignoreFilePatterns).filteredDiff
      env.config.security.allowPatterns env.config.security.allowFiles ≠ []) :
    runSemlint env =
      { exitCode := 2, backendInvocations := 0,
        secretReportLines :=
          ((scanDiffForSecrets
            (filterDiffByIgnoreRules env.rawDiff env.ignoreFilePatterns).filteredDiff
            env.config.security.allowPatterns env.config.security.allowFiles).take 20).map
              formatSecretFindingLine } ∧
    (2 : Nat) ≠ 1 ∧ (2 : Nat) ≠ 0 := by
  refine ⟨?_, by decide, by decide⟩
  unfold runSemlint
  rw [hguard]
  simp only [if_true]
  rw [if_pos (List.length_pos.mpr hfind)]

/-- A concrete run environment: secret guard on, a diff adding
`password=abcdefgh123` to `s.ts`, no allow patterns or allow files, and a
backend that always fails (it must never be consulted). -/
def envC1 : RunEnv :=
  { config :=
      { timeoutMs := 1000
        failOn := FailOn.error
        batchMode := false
        rulesIncludeGlobs := []
        rulesExcludeGlobs := []
        security :=
          { secretGuard := true
            allowPatterns := []
            ignoreFiles := []
            allowFiles := [] } }
    rules := []
    rawDiff := "diff --git a/s.ts b/s.ts\n+++ b/s.ts\n@@ -0,0 +1 @@\n+password=abcdefgh123"
    ignoreFilePatterns := []
    confirmed := true
    backend :=
      ⟨fun _ => Except.error "backend unavailable",
        fun _ => Except.error "backend unavailable"⟩
    repoRoot := none
    cwd := "/repo"
    fileExists := fun _ => false
    renderRulePromptFn := fun _ _ _ _ _ => ""
    renderBatchPromptFn := fun _ _ => "" }

/-- C1 witness: on `envC1` the guard is enabled, the scan of the filtered
diff is non-empty, and the run exits with code 2, zero backend
invocations, and the formatted finding line. -/
theorem C1_secret_guard_blocks_witness :
    envC1.config.security.secretGuard = true ∧
    scanDiffForSecrets
      (filterDiffByIgnoreRules envC1.rawDiff envC1.ignoreFilePatterns).filteredDiff
      envC1.config.security.allowPatterns envC1.config.security.allowFiles ≠ [] ∧
    runSemlint envC1 =
      { exitCode := 2, backendInvocations := 0,
        secretReportLines := ["  s.ts:1  generic_secret_assignment  sample=pa***23"] } := by
  refine ⟨rfl, by decide, ?_⟩
  exact ((C1_secret_guard_blocks envC1 rfl (by decide)).1).trans (by decide)
